import Mathlib

/-!
Verification of the pequod build orchestrator (`pequod.py`).

The Lean definitions below are a shallow embedding of the Python source:
pure data and list manipulation become Lean functions; Python exceptions
(`KeyError`, `AttributeError`, a failed `create_subprocess_exec`) become
`Except`; the asyncio event loop becomes an explicit step scheduler over
per-task event lists; machine-independent values (strings, lists, naturals)
are kept as-is.  CPython object identity, which drives `set` membership for
objects that define no `__eq__`/`__hash__` (both `Component` and
`ComponentGroup` define neither), is modelled by an explicit `oid` field
given a fresh value for each constructed object.
-/

namespace Pequod

/-! ## Data model: `Component` and `ComponentGroup` (pequod.py lines 290-333)

`Component.__init__` stores `name`, `image_name`, `dockerfile`, `comp_type`,
`context_folder` (defaulting to `"."`), `aliases` (defaulting to `[]`),
`depends_on` (defaulting to `[]`) and unconditionally sets
`self.is_supported = True`.  The constructor takes no `is_supported`
parameter, so the field is modelled on the structure but only the
`Component.init` embedding of `__init__` is used by loading. -/

structure Component where
  oid : Nat
  name : String
  image_name : String
  dockerfile : String
  comp_type : Option String
  context_folder : String
  aliases : List String
  is_supported : Bool
  depends_on : List String
  deriving DecidableEq, Repr

/-- Embedding of `Component.__init__`: the optional keyword arguments
arrive as `Option`s (`none` = the Python default, mapped inside exactly as
lines 296-310 do), `is_supported` is set to `True` unconditionally
(line 303) and there is no parameter that can override it.  `oid` models
the fresh CPython object identity of the newly constructed object. -/
def Component.init (oid : Nat) (name image_name dockerfile : String)
    (comp_type : Option String) (context_folder : Option String)
    (aliases : Option (List String))
    (depends_on : Option (List String)) : Component :=
  { oid := oid
    name := name
    image_name := image_name
    dockerfile := dockerfile
    comp_type := comp_type
    context_folder := context_folder.getD "."
    aliases := aliases.getD []
    is_supported := true
    depends_on := depends_on.getD [] }

/-- A registry item: either a `Component`, a `ComponentGroup`
(constructor `group oid name includes aliases`), or a bare string sitting in
a config-declared group's `includes` list.  The source never links those
strings to objects (the TODO at lines 352 and 364), so calling
`get_components` on one raises `AttributeError`; the `strRef` constructor
models exactly that situation. -/
inductive Item where
  | comp (c : Component)
  | group (oid : Nat) (name : String) (includes : List Item) (aliases : List String)
  | strRef (s : String)

/-- CPython object identity of an item (strings are interned/value-like here;
no claim depends on string identity). -/
def Item.oid : Item → Nat
  | .comp c => c.oid
  | .group oid _ _ _ => oid + 1000000
  | .strRef _ => 2000000

mutual

/-- Embedding of `Component.get_components` (returns `[self]`) and
`ComponentGroup.get_components` (the list comprehension flattening
`includes` left to right, line 330-333).  Calling it on a bare string
raises `AttributeError`, hence the `Except`. -/
def Item.get_components : Item → Except String (List Component)
  | .comp c => .ok [c]
  | .group _ _ includes _ => Item.getAll includes
  | .strRef s => .error (s ++ " has no attribute get_components")

/-- Left-to-right flattening of a list of items, propagating the first
`AttributeError`, as the comprehension in `ComponentGroup.get_components`
does. -/
def Item.getAll : List Item → Except String (List Component)
  | [] => .ok []
  | i :: rest => do
      let cs ← Item.get_components i
      let cs' ← Item.getAll rest
      pure (cs ++ cs')

end

/-! ## Python dict and set models -/

/-- Python dict assignment `d[k] = v`: overwrite in place if the key is
present, otherwise append. -/
def dictInsert : List (String × Item) → String → Item → List (String × Item)
  | [], k, v => [(k, v)]
  | (k', v') :: rest, k, v =>
      if k' = k then (k, v) :: rest else (k', v') :: dictInsert rest k v

/-- Python dict lookup `d[k]` (first match; keys are unique by
construction through `dictInsert`). -/
def dictLookup : List (String × Item) → String → Option Item
  | [], _ => none
  | (k', v) :: rest, k => if k' = k then some v else dictLookup rest k

/-- A Python `set` of objects with no custom `__eq__`: membership is object
identity.  We keep first-occurrence insertion order; CPython's actual
iteration order is unspecified, and every theorem below that depends on the
set's contents is stated in terms of per-element multiplicity, which is
invariant under the enumeration order. -/
def pySetInsert (s : List Item) (i : Item) : List Item :=
  if s.any (fun j => j.oid = i.oid) then s else s ++ [i]

/-- Evaluation-order set construction: elements are looked at left to
right, an element whose identity is already present is skipped. -/
def pySetBuild (acc : List Item) : List Item → List Item
  | [] => acc
  | i :: rest => pySetBuild (pySetInsert acc i) rest

/-- The set comprehension `{component_items_by_name[name] for name in
component_names}` (line 536): look every name up in order (a missing name
raises `KeyError`) and collect the distinct objects. -/
def lookupItems (registry : List (String × Item)) :
    List String → Except String (List Item)
  | [] => .ok []
  | n :: rest =>
      match dictLookup registry n with
      | none => .error ("KeyError: " ++ n)
      | some it => do
          let items ← lookupItems registry rest
          pure (it :: items)

/-- Embedding of `normalize_components` (lines 535-537): build the set of
looked-up items, then `list(chain(*(item.get_components() for item in
items)))` — flatten each distinct item's components and concatenate. -/
def normalize_components (registry : List (String × Item))
    (component_names : List String) : Except String (List Component) := do
  let looked ← lookupItems registry component_names
  let items := pySetBuild [] looked
  Item.getAll items

/-! ## Configuration and `load_components` (lines 344-395)

The YAML file arrives as a parsed mapping: a `components` list (absent
section raises) and an optional `groups` list.  A config group's
`includes` entries are plain strings — the source has TODOs at lines 352
and 364 noting they are never linked to objects — so they are embedded as
`strRef` items. -/

structure CompConfig where
  name : String
  image_name : String
  dockerfile : String
  comp_type : Option String
  context_folder : Option String
  aliases : Option (List String)
  depends_on : Option (List String)

structure GroupConfig where
  name : String
  includes : List String
  aliases : Option (List String)

structure Config where
  components : Option (List CompConfig)
  groups : Option (List GroupConfig)

/-- Construct the `Component` objects from the `components` section in
order, giving each a fresh object identity (its index). -/
def buildComps : Nat → List CompConfig → List Component
  | _, [] => []
  | i, c :: rest =>
      Component.init i c.name c.image_name c.dockerfile c.comp_type
        c.context_folder c.aliases c.depends_on :: buildComps (i + 1) rest

/-- Python truthiness of `cc.comp_type` (line 355): `None` and the empty
string are falsy. -/
def typeKey (c : Component) : Option String :=
  match c.comp_type with
  | none => none
  | some t => if t = "" then none else some t

/-- Append a component to its type's bucket, creating the bucket at the end
on first occurrence — the behaviour of the `components_by_type` dict
(lines 356-358), whose iteration order is insertion order. -/
def addByType (t : String) (c : Component) :
    List (String × List Component) → List (String × List Component)
  | [] => [(t, [c])]
  | (t', cs) :: rest =>
      if t' = t then (t', cs ++ [c]) :: rest else (t', cs) :: addByType t c rest

/-- The `components_by_type` mapping after the first loop: components are
processed in declaration order, each appended to its bucket, buckets
created in first-occurrence order. -/
def byTypeFold (m : List (String × List Component)) :
    List Component → List (String × List Component)
  | [] => m
  | c :: rest =>
      match typeKey c with
      | none => byTypeFold m rest
      | some t => byTypeFold (addByType t c m) rest

/-- Construct the config-declared `ComponentGroup` objects in order; their
`includes` stay unlinked strings. -/
def buildGroups : Nat → List GroupConfig → List Item
  | _, [] => []
  | i, g :: rest =>
      .group i g.name (g.includes.map .strRef) ((g.aliases).getD [])
        :: buildGroups (i + 1) rest

/-- Name of an item as used when registering it in `items_by_name`. -/
def Item.iname : Item → String
  | .comp c => c.name
  | .group _ n _ _ => n
  | .strRef s => s

/-- Aliases of an item as used when registering it in `items_by_name`. -/
def Item.ialiases : Item → List String
  | .comp c => c.aliases
  | .group _ _ _ al => al
  | .strRef _ => []

/-- The synthetic type groups (lines 372-376): one per `components_by_type`
key not already naming a group, holding that type's components, created in
dict iteration order with fresh identities. -/
def buildTypeGroups (oid : Nat) (present : List String) :
    List (String × List Component) → List Item
  | [] => []
  | (t, cs) :: rest =>
      if t ∈ present then buildTypeGroups (oid + 1) present rest
      else .group oid t (cs.map .comp) []
             :: buildTypeGroups (oid + 1) (present ++ [t]) rest

/-- Registration entries contributed by the components (lines 379-383):
for each component its name and then each alias, in order. -/
def compRegs : List Component → List (String × Item)
  | [] => []
  | c :: rest =>
      (c.name, .comp c) :: (c.aliases.map (fun a => (a, .comp c))) ++ compRegs rest

/-- Registration entries contributed by the groups (lines 384-388). -/
def groupRegs : List Item → List (String × Item)
  | [] => []
  | g :: rest =>
      (g.iname, g) :: (g.ialiases.map (fun a => (a, g))) ++ groupRegs rest

/-- The groups list after synthesizing `all` (lines 368-371) and the type
groups: config groups in order, then `all` if no config group has that
name, then the type groups. -/
def allGroupsOf (cfgGroups : List Item) (comps : List Component) : List Item :=
  let groupNames := cfgGroups.map Item.iname
  let withAll :=
    if "all" ∈ groupNames then cfgGroups
    else cfgGroups ++ [.group cfgGroups.length "all" (comps.map .comp) []]
  let namesAfterAll :=
    if "all" ∈ groupNames then groupNames else groupNames ++ ["all"]
  withAll ++
    buildTypeGroups (cfgGroups.length + 1) namesAfterAll (byTypeFold [] comps)

/-- The full ordered registration sequence `items_by_name` is built from:
every component (name then aliases, in order), then every group (name then
aliases, in order). -/
def registrations (cs : List CompConfig) (gs : List GroupConfig) :
    List (String × Item) :=
  let comps := buildComps 0 cs
  let groups := allGroupsOf (buildGroups 0 gs) comps
  compRegs comps ++ groupRegs groups

/-- Embedding of `load_components` (lines 344-390): raise when the
`components` section is missing, otherwise build `items_by_name` by
assigning every registration entry into a dict, later assignments
overwriting earlier ones. -/
def load_components (config : Config) : Except String (List (String × Item)) :=
  match config.components with
  | none => .error "No components defined"
  | some cs =>
      .ok ((registrations cs ((config.groups).getD [])).foldl
        (fun d kv => dictInsert d kv.1 kv.2) [])

/-! ## Labeled stream sink: `mkprint` (lines 398-409) -/

/-- A continuation byte `0x80..0xBF`. -/
def isCont (b : Nat) : Bool := 0x80 ≤ b && b ≤ 0xBF

/-- Admissible second byte of a three-byte sequence (excludes overlong
encodings for `0xE0` and surrogates for `0xED`). -/
def cont3fst (b0 b1 : Nat) : Bool :=
  if b0 = 0xE0 then 0xA0 ≤ b1 && b1 ≤ 0xBF
  else if b0 = 0xED then 0x80 ≤ b1 && b1 ≤ 0x9F
  else isCont b1

/-- Admissible second byte of a four-byte sequence (excludes overlong
encodings for `0xF0` and code points above `0x10FFFF` for `0xF4`). -/
def cont4fst (b0 b1 : Nat) : Bool :=
  if b0 = 0xF0 then 0x90 ≤ b1 && b1 ≤ 0xBF
  else if b0 = 0xF4 then 0x80 ≤ b1 && b1 ≤ 0x8F
  else isCont b1

/-- Strict UTF-8 decoding of a byte sequence, as `bytes.decode('utf-8')`
performs it: one to four byte sequences, rejecting truncated sequences,
stray continuation bytes, overlong encodings, surrogate code points and
code points above `0x10FFFF`; `none` models `UnicodeDecodeError`. -/
def utf8Decode : List Nat → Option (List Char)
  | [] => some []
  | b0 :: rest =>
    if b0 < 0x80 then
      (utf8Decode rest).map (fun cs => Char.ofNat b0 :: cs)
    else if 0xC2 ≤ b0 && b0 ≤ 0xDF then
      match rest with
      | [] => none
      | b1 :: rest1 =>
        if isCont b1 then
          (utf8Decode rest1).map
            (fun cs => Char.ofNat ((b0 - 0xC0) * 0x40 + (b1 - 0x80)) :: cs)
        else none
    else if 0xE0 ≤ b0 && b0 ≤ 0xEF then
      match rest with
      | b1 :: b2 :: rest2 =>
        if cont3fst b0 b1 && isCont b2 then
          (utf8Decode rest2).map
            (fun cs => Char.ofNat
              ((b0 - 0xE0) * 0x1000 + (b1 - 0x80) * 0x40 + (b2 - 0x80)) :: cs)
        else none
      | _ => none
    else if 0xF0 ≤ b0 && b0 ≤ 0xF4 then
      match rest with
      | b1 :: b2 :: b3 :: rest3 =>
        if cont4fst b0 b1 && isCont b2 && isCont b3 then
          (utf8Decode rest3).map
            (fun cs => Char.ofNat
              ((b0 - 0xF0) * 0x40000 + (b1 - 0x80) * 0x1000
                + (b2 - 0x80) * 0x40 + (b3 - 0x80)) :: cs)
        else none
      | _ => none
    else none

/-- An output channel a sink can be bound to. -/
inductive Channel where
  | stdout
  | stderr
  deriving DecidableEq, Repr

/-- A line handed to a sink: raw bytes (as delivered by
`stream.readline()`) or text. -/
inductive LineData where
  | bytes (bs : List Nat)
  | text (s : String)

/-- The `isinstance(s, bytes)` branch of `_print`: bytes are decoded as
UTF-8, text passes through. -/
def decodeLine : LineData → Option String
  | .text s => some s
  | .bytes bs => (utf8Decode bs).map (fun cs => String.mk cs)

/-- Embedding of `mkprint(label, file)` (lines 398-409): the returned
closure decodes a bytes line as UTF-8, prefixes `label ++ ": "` when a
label was given, and writes the result with `end=''` (so nothing is
appended and the line's own terminator is preserved) to the bound channel,
which defaults to standard output.  The result is the channel written to
and the exact string written; `none` models `UnicodeDecodeError`. -/
def mkprint (label : Option String) (file : Option Channel) :
    LineData → Option (Channel × String) := fun s =>
  let chan := file.getD .stdout
  match decodeLine s with
  | none => none
  | some str =>
      match label with
      | some l => some (chan, l ++ ": " ++ str)
      | none => some (chan, str)

/-! ## Default image tag: `get_image_tag_from_git_commit` (lines 19-27) -/

/-- Drop leading whitespace characters. -/
def dropLeadingWs : List Char → List Char
  | [] => []
  | c :: rest => if c.isWhitespace then dropLeadingWs rest else c :: rest

/-- Python `str.strip()` on the ASCII output of `git describe`: remove
whitespace from both ends (over the whitespace characters git output can
contain). -/
def pyStrip (s : String) : String :=
  String.mk ((dropLeadingWs (dropLeadingWs s.data.reverse).reverse))

/-- Python `str.endswith` over the string's characters. -/
def pyEndsWith (s suffix : String) : Bool :=
  (decide (suffix.data.length ≤ s.data.length))
    && s.data.drop (s.data.length - suffix.data.length) == suffix.data

/-- A UTC wall-clock instant as `datetime.utcnow()` delivers it. -/
structure UtcTime where
  year : Nat
  month : Nat
  day : Nat
  hour : Nat
  minute : Nat
  second : Nat
  deriving DecidableEq, Repr

/-- The decimal digit character for `d mod 10`. -/
def digitChar (d : Nat) : Char := Char.ofNat (48 + d % 10)

/-- Two-digit zero-padded decimal (the strftime `%m %d %H %M %S` fields,
all below 100). -/
def pad2 (n : Nat) : List Char := [digitChar (n / 10), digitChar n]

/-- Four-digit zero-padded decimal (the strftime `%Y` field, below
10000). -/
def pad4 (n : Nat) : List Char :=
  [digitChar (n / 1000), digitChar (n / 100), digitChar (n / 10), digitChar n]

/-- Embedding of `datetime.utcnow().strftime('%Y%m%d-%H%M%S')`. -/
def strftimeTs (t : UtcTime) : String :=
  String.mk (pad4 t.year ++ pad2 t.month ++ pad2 t.day ++ ['-']
    ++ pad2 t.hour ++ pad2 t.minute ++ pad2 t.second)

/-- Embedding of `get_image_tag_from_git_commit` (lines 19-27), as a
function of the `git describe --exclude=* --always --abbrev=40 --dirty`
standard output and of the current UTC time: strip the output; when it
ends in `-dirty` append `-` and the formatted timestamp. -/
def get_image_tag_from_git_commit (gitOut : String) (now : UtcTime) : String :=
  let tag := pyStrip gitOut
  if pyEndsWith tag "-dirty" then tag ++ "-" ++ strftimeTs now else tag

/-- Checker for the `YYYYMMDD-HHMMSS` shape: fifteen characters, all
decimal digits except a dash at index eight. -/
def tsShape : List Char → Bool
  | [y1, y2, y3, y4, m1, m2, d1, d2, dash, h1, h2, mi1, mi2, s1, s2] =>
      y1.isDigit && y2.isDigit && y3.isDigit && y4.isDigit
        && m1.isDigit && m2.isDigit && d1.isDigit && d2.isDigit
        && (dash = '-') && h1.isDigit && h2.isDigit
        && mi1.isDigit && mi2.isDigit && s1.isDigit && s2.isDigit
  | _ => false

/-! ## Sequential model of the composed operations (lines 477-532)

`compose_image_operation_command` returns a coroutine that awaits one
`stream_subprocess` per external command, in source order.  Each await
returns the exit code, which the coroutine discards; only a raised
exception (a failed `create_subprocess_exec`) escapes and aborts the rest
of the coroutine.  The model below threads the list of commands actually
spawned and an `Except` for a raised exception. -/

/-- The outcome the outside world gives one command: it spawns and exits
with a code, or the spawn itself fails (`FileNotFoundError` from
`create_subprocess_exec`). -/
inductive POutcome where
  | exit (code : Nat)
  | spawnFail
  deriving DecidableEq, Repr

/-- The environment: what each external command would do. -/
def PWorld := List String → POutcome

/-- One `await stream_subprocess(cmd, ...)`: on a successful spawn the
command is recorded as spawned and its exit code returned (lines 432-446);
on a spawn failure nothing is spawned and the exception propagates. -/
def runStep (world : PWorld) (cmd : List String)
    (trace : List (List String)) : List (List String) × Except String Nat :=
  match world cmd with
  | .exit c => (trace ++ [cmd], .ok c)
  | .spawnFail => (trace, .error "ProcessSpawnError")

/-- The fully qualified image reference
`registry_url/project_name/image_name:image_tag` (lines 483-484). -/
def full_image_name (registry_url project_name image_name image_tag : String) :
    String :=
  registry_url ++ "/" ++ project_name ++ "/" ++ image_name ++ ":" ++ image_tag

/-- The `docker build` argument vector (lines 488-489). -/
def buildCmd (c : Component) : List String :=
  ["docker", "build", "-t", c.image_name, "-f", c.dockerfile, c.context_folder]

/-- The `docker tag` argument vector (line 492). -/
def tagCmd (c : Component) (fullName : String) : List String :=
  ["docker", "tag", c.image_name, fullName]

/-- The `docker push` argument vector (line 494). -/
def pushCmd (fullName : String) : List String :=
  ["docker", "push", fullName]

/-- Embedding of the `_tag_and_push` coroutine (lines 507-514): tag, then
push, each awaited; the tag step's exit code is discarded, so only a
raised exception stops the push. -/
def tag_and_push_seq (world : PWorld) (c : Component)
    (registry_url project_name image_tag : String) :
    List (List String) × Except String Unit :=
  let fullName := full_image_name registry_url project_name c.image_name image_tag
  match runStep world (tagCmd c fullName) [] with
  | (t1, .error e) => (t1, .error e)
  | (t1, .ok _) =>
      match runStep world (pushCmd fullName) t1 with
      | (t2, .error e) => (t2, .error e)
      | (t2, .ok _) => (t2, .ok ())

/-- Embedding of the `_build_and_tag_and_push` coroutine (lines 486-497):
build, then tag, then push, each awaited; every exit code is discarded, so
only a raised exception stops the remaining steps. -/
def build_and_tag_and_push_seq (world : PWorld) (c : Component)
    (registry_url project_name image_tag : String) :
    List (List String) × Except String Unit :=
  let fullName := full_image_name registry_url project_name c.image_name image_tag
  match runStep world (buildCmd c) [] with
  | (t1, .error e) => (t1, .error e)
  | (t1, .ok _) =>
      match runStep world (tagCmd c fullName) t1 with
      | (t2, .error e) => (t2, .error e)
      | (t2, .ok _) =>
          match runStep world (pushCmd fullName) t2 with
          | (t3, .error e) => (t3, .error e)
          | (t3, .ok _) => (t3, .ok ())

/-! ## Cooperative scheduler: the asyncio event loop under
`run_multiple_futures` (lines 472-474)

`run_multiple_futures` calls `loop.run_until_complete(asyncio.wait(futures))`
with the default `return_when=ALL_COMPLETED`: every coroutine is wrapped in
a task, the loop switches between the tasks at their suspension points, no
task is ever cancelled because another finished or failed, and control
returns to the caller only once every task has finished.

The model: each task is its remaining list of suspension-point events (a
command spawn, the completion of each stream drain, the awaited process
exit).  A scheduling oracle `pick` chooses, at every step, which of the
currently unfinished tasks runs its next event; the loop stops when no
task has events left.  Quantifying theorems over `pick` covers every
interleaving the single-threaded loop can produce. -/

/-- A suspension-point event of one coroutine: spawning a command,
finishing the drain of its stdout or stderr, and the `process.wait()`
returning an exit code (cf. `stream_subprocess`, lines 432-446, which
awaits both drains and then the exit before returning). -/
inductive Ev where
  | spawn (cmd : List String)
  | drainedOut (cmd : List String)
  | drainedErr (cmd : List String)
  | waited (cmd : List String) (code : Nat)
  deriving DecidableEq, Repr

/-- Scheduler state: the remaining events of every task (indexed by
position) and the global trace of executed events, tagged with the task
that ran them. -/
structure SchedState where
  tasks : List (List Ev)
  trace : List (Nat × Ev)
  deriving DecidableEq, Repr

/-- Indices of the tasks that still have events to run. -/
def activeIdxs (tasks : List (List Ev)) : List Nat :=
  (List.range tasks.length).filter (fun i => !(tasks.getD i []).isEmpty)

/-- One scheduling step: the oracle's choice selects one unfinished task,
which executes its next event; when every task is finished the state is
left unchanged. -/
def schedStep (choice : Nat) (s : SchedState) : SchedState :=
  match (activeIdxs s.tasks)[choice % (activeIdxs s.tasks).length]? with
  | none => s
  | some i =>
      match s.tasks[i]? with
      | none => s
      | some [] => s
      | some (e :: rest) =>
          { tasks := s.tasks.set i rest, trace := s.trace ++ [(i, e)] }

/-- Run the scheduler for a fixed number of steps. -/
def schedRun (pick : Nat → Nat) : Nat → SchedState → SchedState
  | 0, s => s
  | n + 1, s => schedRun pick n (schedStep (pick n) s)

/-- Total number of events still to run. -/
def totalRem (tasks : List (List Ev)) : Nat := (tasks.map List.length).sum

/-- The event loop driving a batch of scheduled tasks:
`loop.run_until_complete(asyncio.wait(futures))` once `asyncio.wait` has
accepted the batch — run the loop until every task has finished (running
for `totalRem` steps suffices, as proved below), under an arbitrary
interleaving oracle.  The guard `asyncio.wait` places *before* any
waiting — it raises `ValueError` on an empty set of futures — is modelled
by `run_multiple_futuresE`, which delegates to this function for a
nonempty batch. -/
def run_multiple_futures (pick : Nat → Nat) (tasks : List (List Ev)) :
    SchedState :=
  schedRun pick (totalRem tasks) { tasks := tasks, trace := [] }

/-- Full embedding of `run_multiple_futures` (lines 472-474):
`asyncio.wait` raises `ValueError` when handed an empty collection of
futures, before waiting on anything; a nonempty batch is driven to
completion by the event loop. -/
def run_multiple_futuresE (pick : Nat → Nat) (tasks : List (List Ev)) :
    Except String SchedState :=
  if tasks.isEmpty then
    .error "ValueError: Set of coroutines/Futures is empty."
  else .ok (run_multiple_futures pick tasks)

/-- The subtrace of events run by task `i`, in execution order. -/
def projTrace (i : Nat) (tr : List (Nat × Ev)) : List Ev :=
  tr.filterMap (fun p => if p.1 = i then some p.2 else none)

/-- Every command awaited by the operation exited zero. -/
def opSucceeds (l : List Ev) : Bool :=
  l.all (fun e => match e with | .waited _ c => c == 0 | _ => true)

/-- Some command awaited by the operation exited non-zero. -/
def opFails (l : List Ev) : Bool :=
  l.any (fun e => match e with | .waited _ c => !(c == 0) | _ => false)

/-! ## Composing operations into tasks (lines 477-532, total-world view)

For the interleaving theorems the world is total: every command spawns and
exits with some code (the codes are irrelevant to scheduling, because the
coroutines discard them). -/

/-- The event sequence of one `await stream_subprocess(cmd, ...)`: spawn,
both drains completed, exit code observed — in that order, nothing of the
next command before all of them (lines 432-446: `asyncio.wait` on the two
drain tasks precedes `process.wait()`). -/
def cmdEvents (world : List String → Nat) (cmd : List String) : List Ev :=
  [.spawn cmd, .drainedOut cmd, .drainedErr cmd, .waited cmd (world cmd)]

/-- Task of the `_build` coroutine (lines 499-505). -/
def buildEvents (world : List String → Nat) (c : Component) : List Ev :=
  cmdEvents world (buildCmd c)

/-- Task of the `_tag_and_push` coroutine (lines 507-514). -/
def tagPushEvents (world : List String → Nat) (c : Component)
    (registry_url project_name image_tag : String) : List Ev :=
  let fullName := full_image_name registry_url project_name c.image_name image_tag
  cmdEvents world (tagCmd c fullName) ++ cmdEvents world (pushCmd fullName)

/-- Task of the `_build_and_tag_and_push` coroutine (lines 486-497). -/
def buildTagPushEvents (world : List String → Nat) (c : Component)
    (registry_url project_name image_tag : String) : List Ev :=
  let fullName := full_image_name registry_url project_name c.image_name image_tag
  cmdEvents world (buildCmd c) ++ cmdEvents world (tagCmd c fullName)
    ++ cmdEvents world (pushCmd fullName)

/-- The skip notice printed for an unsupported component (lines 183-184,
194-195, 207-208). -/
def noticeStr (c : Component) : String := c.name ++ " is not currently supported"

/-- The `for comp in components` loop shared by `cmd_build`, `cmd_push`
and `cmd_build_and_push` (lines 182-186 etc.): an unsupported component
prints its notice and is skipped, a supported one contributes its
operation future; both lists keep iteration order. -/
def composeLoop (mk : Component → List Ev) :
    List Component → List String × List (List Ev)
  | [] => ([], [])
  | c :: rest =>
      let (ns, fs) := composeLoop mk rest
      if c.is_supported then (ns, mk c :: fs) else (noticeStr c :: ns, fs)

/-- Embedding of `cmd_build` (lines 179-187): resolve the names (a
`KeyError` propagates before anything is printed or spawned), compose one
build future per supported component, print a notice per unsupported
occurrence, then run all futures to completion.  When *no* future was
composed (every resolved component unsupported, or nothing resolved),
`asyncio.wait` raises `ValueError`: the handler crashes after having
printed the notices — the error result models the crash (the notices,
already written to stdout by then, are not part of the error value). -/
def cmd_build (pick : Nat → Nat) (world : List String → Nat)
    (registry : List (String × Item)) (names : List String) :
    Except String (List String × SchedState) := do
  let comps ← normalize_components registry names
  let (notices, tasks) := composeLoop (buildEvents world) comps
  let st ← run_multiple_futuresE pick tasks
  pure (notices, st)

/-- Embedding of `cmd_push` (lines 190-199); same structure and the same
empty-batch `ValueError` as `cmd_build`. -/
def cmd_push (pick : Nat → Nat) (world : List String → Nat)
    (registry : List (String × Item)) (names : List String)
    (registry_url project_name image_tag : String) :
    Except String (List String × SchedState) := do
  let comps ← normalize_components registry names
  let (notices, tasks) :=
    composeLoop (fun c => tagPushEvents world c registry_url project_name image_tag)
      comps
  let st ← run_multiple_futuresE pick tasks
  pure (notices, st)

/-- Embedding of `cmd_build_and_push` (lines 202-212); same structure and
the same empty-batch `ValueError` as `cmd_build`. -/
def cmd_build_and_push (pick : Nat → Nat) (world : List String → Nat)
    (registry : List (String × Item)) (names : List String)
    (registry_url project_name image_tag : String) :
    Except String (List String × SchedState) := do
  let comps ← normalize_components registry names
  let (notices, tasks) :=
    composeLoop
      (fun c => buildTagPushEvents world c registry_url project_name image_tag)
      comps
  let st ← run_multiple_futuresE pick tasks
  pure (notices, st)

/-- Events actually executed by an invocation: none when the invocation
aborted with an exception before `run_multiple_futures` was reached. -/
def spawnedEvents (r : Except String (List String × SchedState)) :
    List (Nat × Ev) :=
  match r with
  | .error _ => []
  | .ok (_, st) => st.trace

/-- Notices actually printed by an invocation: none when the invocation
aborted with an exception before the component loop. -/
def noticesOf (r : Except String (List String × SchedState)) : List String :=
  match r with
  | .error _ => []
  | .ok (ns, _) => ns

/-- The last value registered under a key in a registration sequence. -/
def lastAssoc : List (String × Item) → String → Option Item
  | [], _ => none
  | p :: rest, k =>
      match lastAssoc rest k with
      | some v => some v
      | none => if p.1 = k then some p.2 else none

/-! ## Support-flag relabelling

To state that resolution never consults `is_supported`, we relabel the
flag everywhere in a registry by an arbitrary function and show
`normalize_components` commutes with the relabelling. -/

/-- Apply `f` to a component's support flag, leaving everything else. -/
def mapComp (f : Bool → Bool) (c : Component) : Component :=
  { c with is_supported := f c.is_supported }

mutual

/-- Relabel the support flag of every component inside an item. -/
def mapItem (f : Bool → Bool) : Item → Item
  | .comp c => .comp (mapComp f c)
  | .group o n incl al => .group o n (mapItems f incl) al
  | .strRef s => .strRef s

/-- Relabel the support flags inside every item of a list. -/
def mapItems (f : Bool → Bool) : List Item → List Item
  | [] => []
  | i :: rest => mapItem f i :: mapItems f rest

end

/-- Relabel the support flags of every item in a registry. -/
def mapRegistry (f : Bool → Bool) (reg : List (String × Item)) :
    List (String × Item) :=
  reg.map (fun kv => (kv.1, mapItem f kv.2))

/-! ## Concrete example data, used by witnesses and counterexamples -/

/-- A small config: two components (one aliased, one typed), no `groups`
section. -/
def exampleConfig : Config :=
  { components := some [
      { name := "example1", image_name := "example1-img",
        dockerfile := "Dockerfile1", comp_type := none, context_folder := none,
        aliases := some ["e1"], depends_on := none },
      { name := "example2", image_name := "example2-img",
        dockerfile := "Dockerfile2", comp_type := some "svc",
        context_folder := none, aliases := none, depends_on := none }],
    groups := none }

/-- The registry loaded from `exampleConfig`. -/
def exampleRegistry : List (String × Item) :=
  match load_components exampleConfig with
  | .ok d => d
  | .error _ => []

/-- The components actually resolved for `["all", "example1"]` against
`exampleConfig` (with `all = [example1, example2]`). -/
def resolvedExample : Except String (List Component) :=
  match load_components exampleConfig with
  | .error e => .error e
  | .ok reg => normalize_components reg ["all", "example1"]

/-- A minimal registry for the C1 witness: one component, requested once. -/
def wComp : Component := Component.init 0 "a" "a-img" "Dfa" none none none none

/-- Registry holding only `wComp`. -/
def wReg : List (String × Item) := [("a", .comp wComp)]

/-- A component whose support flag is off.  Unreachable through
`load_components` (claim C6), so built literally: it models the state the
operation layer is specified against. -/
def uComp : Component :=
  { oid := 10, name := "u", image_name := "u-img", dockerfile := "Du",
    comp_type := none, context_folder := ".", aliases := [],
    is_supported := false, depends_on := [] }

/-- A supported companion component. -/
def vComp : Component := Component.init 0 "v" "v-img" "Dv" none none none none

/-- A registry where the group `all` contains the supported `vComp` and
the unsupported `uComp`, both also registered by name. -/
def uReg : List (String × Item) :=
  [("v", .comp vComp), ("u", .comp uComp),
   ("all", .group 0 "all" [.comp vComp, .comp uComp] [])]

/-! ## Dict lemmas and the Name Registry -/

theorem dictLookup_dictInsert (d : List (String × Item)) (k' : String)
    (v' : Item) (k : String) :
    dictLookup (dictInsert d k' v') k
      = if k' = k then some v' else dictLookup d k := by
  induction d with
  | nil =>
      by_cases h : k' = k <;> simp [dictInsert, dictLookup, h]
  | cons p tl ih =>
      obtain ⟨k0, v0⟩ := p
      by_cases h1 : k0 = k'
      · subst h1
        by_cases h2 : k0 = k
        · subst h2
          simp [dictInsert, dictLookup]
        · simp [dictInsert, dictLookup, h2]
      · by_cases h3 : k0 = k
        · subst h3
          have h4 : ¬ k' = k0 := fun hh => h1 hh.symm
          simp [dictInsert, dictLookup, h1, h4]
        · simp [dictInsert, dictLookup, h1, h3, ih]

theorem dictLookup_foldl (regs : List (String × Item))
    (d : List (String × Item)) (k : String) :
    dictLookup (regs.foldl (fun d kv => dictInsert d kv.1 kv.2) d) k
      = match lastAssoc regs k with
        | some v => some v
        | none => dictLookup d k := by
  induction regs generalizing d with
  | nil => rfl
  | cons kv rest ih =>
      simp only [List.foldl, lastAssoc]
      rw [ih]
      cases lastAssoc rest k with
      | some v => rfl
      | none =>
          by_cases h : kv.1 = k <;> simp [dictLookup_dictInsert, h]

theorem lastAssoc_isSome_of_mem (regs : List (String × Item)) (name : String)
    (it : Item) (h : (name, it) ∈ regs) : ∃ v, lastAssoc regs name = some v := by
  induction regs with
  | nil => simp at h
  | cons p rest ih =>
      rcases List.mem_cons.1 h with h | h
      · subst h
        cases hr : lastAssoc rest name with
        | some v => exact ⟨v, by simp [lastAssoc, hr]⟩
        | none => exact ⟨it, by simp [lastAssoc, hr]⟩
      · obtain ⟨v, hv⟩ := ih h
        exact ⟨v, by simp [lastAssoc, hv]⟩

/-- C8: after loading, `items_by_name` maps every name to something, and a
name registered several times maps to the entry registered last.  The
registration sequence (`registrations`) is: every component's name then
aliases in declaration order, then every group's name then aliases in
order — config groups, then the synthetic `all` group (when no config
group is named `all`), then the synthetic per-type groups. -/
theorem load_components_last_registered_wins (config : Config)
    (cs : List CompConfig) (registry : List (String × Item))
    (hc : config.components = some cs)
    (hl : load_components config = .ok registry) :
    (∀ name, dictLookup registry name
        = lastAssoc (registrations cs ((config.groups).getD [])) name) ∧
    (∀ name it, (name, it) ∈ registrations cs ((config.groups).getD []) →
        ∃ v, dictLookup registry name = some v) := by
  have hreg : registry
      = (registrations cs ((config.groups).getD [])).foldl
          (fun d kv => dictInsert d kv.1 kv.2) [] := by
    unfold load_components at hl
    rw [hc] at hl
    exact (Except.ok.inj hl).symm
  subst hreg
  constructor
  · intro name
    rw [dictLookup_foldl]
    cases lastAssoc (registrations cs ((config.groups).getD [])) name <;> rfl
  · intro name it hmem
    obtain ⟨v, hv⟩ := lastAssoc_isSome_of_mem _ _ _ hmem
    refine ⟨v, ?_⟩
    rw [dictLookup_foldl, hv]

/-- Witness for C8 at `exampleConfig`. -/
theorem load_components_last_registered_wins_witness :
    (∀ name, dictLookup exampleRegistry name
        = lastAssoc (registrations
            ((exampleConfig.components).getD []) []) name) ∧
    (∀ name it,
        (name, it) ∈ registrations ((exampleConfig.components).getD []) [] →
        ∃ v, dictLookup exampleRegistry name = some v) :=
  load_components_last_registered_wins exampleConfig
    ((exampleConfig.components).getD []) exampleRegistry rfl rfl

/-! ## Resolution lemmas -/

theorem lookupItems_ok_forall2 (reg : List (String × Item)) :
    ∀ names looked, lookupItems reg names = .ok looked →
      List.Forall₂ (fun n it => dictLookup reg n = some it) names looked := by
  intro names
  induction names with
  | nil =>
      intro looked h
      simp only [lookupItems] at h
      cases h
      exact List.Forall₂.nil
  | cons n rest ih =>
      intro looked h
      simp only [lookupItems] at h
      cases hd : dictLookup reg n with
      | none => rw [hd] at h; cases h
      | some it =>
          rw [hd] at h
          cases hr : lookupItems reg rest with
          | error e => rw [hr] at h; cases h
          | ok items =>
              rw [hr] at h
              simp only [Except.bind, Except.pure] at h
              cases h
              exact List.Forall₂.cons hd (ih items hr)

theorem lookupItems_error_of_unknown (reg : List (String × Item))
    (names : List String) (h : ∃ n ∈ names, dictLookup reg n = none) :
    ∃ e, lookupItems reg names = .error e := by
  induction names with
  | nil => simp at h
  | cons n rest ih =>
      cases hd : dictLookup reg n with
      | none => exact ⟨"KeyError: " ++ n, by simp [lookupItems, hd]⟩
      | some it =>
          obtain ⟨n', hn', hnone⟩ := h
          rcases List.mem_cons.1 hn' with h1 | h1
          · subst h1; rw [hd] at hnone; cases hnone
          · obtain ⟨e, he⟩ := ih ⟨n', h1, hnone⟩
            exact ⟨e, by simp [lookupItems, hd, he, Except.bind]⟩

theorem getAll_ok_characterization :
    ∀ (l : List Item) (cs : List Component), Item.getAll l = .ok cs →
      ∃ css, List.Forall₂ (fun it cs' => it.get_components = .ok cs') l css ∧
        cs = css.flatten := by
  intro l
  induction l with
  | nil =>
      intro cs h
      rw [Item.getAll] at h
      cases h
      exact ⟨[], List.Forall₂.nil, rfl⟩
  | cons i rest ih =>
      intro cs h
      rw [Item.getAll] at h
      cases hg : i.get_components with
      | error e => rw [hg] at h; cases h
      | ok cs1 =>
          rw [hg] at h
          cases hr : Item.getAll rest with
          | error e => simp only [hr, Except.bind] at h; cases h
          | ok cs2 =>
              simp only [hr, Except.bind, Except.pure] at h
              cases h
              obtain ⟨css, hf, hcs⟩ := ih cs2 hr
              exact ⟨cs1 :: css, List.Forall₂.cons hg hf, by simp [hcs]⟩

theorem pySetInsert_oids (s : List Item) (i : Item) (o : Nat) :
    o ∈ (pySetInsert s i).map Item.oid ↔ o ∈ s.map Item.oid ∨ o = i.oid := by
  cases hany : s.any (fun j => j.oid = i.oid) with
  | true =>
      have hmem : ∃ j ∈ s, j.oid = i.oid := by
        simpa [List.any_eq_true] using hany
      simp only [pySetInsert, hany, if_true]
      constructor
      · intro hh; exact Or.inl hh
      · rintro (hh | hh)
        · exact hh
        · obtain ⟨j, hj, hj2⟩ := hmem
          exact List.mem_map.2 ⟨j, hj, by rw [hj2, hh]⟩
  | false =>
      simp [pySetInsert, hany]

theorem pySetInsert_nodup (s : List Item) (i : Item)
    (h : (s.map Item.oid).Nodup) : ((pySetInsert s i).map Item.oid).Nodup := by
  cases hany : s.any (fun j => j.oid = i.oid) with
  | true => simpa [pySetInsert, hany] using h
  | false =>
      have hnmem : i.oid ∉ s.map Item.oid := by
        intro hmem
        obtain ⟨j, hj, hj2⟩ := List.mem_map.1 hmem
        have : s.any (fun j => j.oid = i.oid) = true :=
          List.any_eq_true.2 ⟨j, hj, by simp [hj2]⟩
        rw [hany] at this
        cases this
      have hrw : pySetInsert s i = s ++ [i] := by
        simp [pySetInsert, hany]
      rw [hrw, List.map_append, List.nodup_append]
      refine ⟨h, List.nodup_singleton _, ?_⟩
      intro a ha hb
      simp only [List.map_cons, List.map_nil, List.mem_singleton] at hb
      exact hnmem (hb ▸ ha)

theorem pySetBuild_oids :
    ∀ (l acc : List Item) (o : Nat),
      o ∈ (pySetBuild acc l).map Item.oid ↔
        o ∈ acc.map Item.oid ∨ o ∈ l.map Item.oid := by
  intro l
  induction l with
  | nil => intro acc o; simp [pySetBuild]
  | cons i rest ih =>
      intro acc o
      simp only [pySetBuild]
      rw [ih]
      rw [pySetInsert_oids]
      simp only [List.map_cons, List.mem_cons]
      tauto

theorem pySetBuild_nodup :
    ∀ (l acc : List Item), (acc.map Item.oid).Nodup →
      ((pySetBuild acc l).map Item.oid).Nodup := by
  intro l
  induction l with
  | nil => intro acc h; simpa [pySetBuild] using h
  | cons i rest ih =>
      intro acc h
      simp only [pySetBuild]
      exact ih _ (pySetInsert_nodup _ _ h)

/-! ## Claim C1 -/

/-- C1 counterexample: resolving `["all", "example1"]` where
`all = [example1, example2]` yields the component `example1` twice (at
positions zero and two), not exactly once.  The deduplicating `set` in
`normalize_components` holds the *requested items* — the `all` group
object and the `example1` component object, which are distinct — and the
flattening of the two is concatenated, so the claim's "each underlying
Component exactly once" is false.  The multiplicity two is independent of
the unspecified CPython set enumeration order, since each of the two
distinct set elements contributes one occurrence when flattened. -/
theorem normalize_components_duplicate_counterexample :
    (match resolvedExample with
      | .ok cs => cs.countP (fun c => c.name == "example1")
      | .error _ => 0) = 2 ∧
    (resolvedExample.map (List.map Component.name))
      = .ok ["example1", "example2", "example1"] := by
  constructor <;> rfl

/-- C1 (amended): resolution deduplicates at the level of the resolved
registry items, by object identity, before group flattening.  Every
requested name resolves to its registry object; the set of those objects
holds each distinct object exactly once (its identities are exactly the
requested ones, without duplicates); and the result is the concatenation
of each distinct resolved item's recursive depth-first flattening — so
names resolving to the same object contribute it once, while a Component
reachable through two distinct resolved items (a group plus an explicit
member, as in the counterexample) appears once per such item. -/
theorem normalize_components_dedups_by_item_identity
    (reg : List (String × Item)) (names : List String)
    (looked : List Item) (cs : List Component)
    (hl : lookupItems reg names = .ok looked)
    (hn : normalize_components reg names = .ok cs) :
    List.Forall₂ (fun n it => dictLookup reg n = some it) names looked ∧
    ((pySetBuild [] looked).map Item.oid).Nodup ∧
    (∀ o, o ∈ (pySetBuild [] looked).map Item.oid ↔ o ∈ looked.map Item.oid) ∧
    (∃ css,
      List.Forall₂ (fun it cs' => it.get_components = .ok cs')
        (pySetBuild [] looked) css ∧
      cs = css.flatten ∧
      ∀ c : Component, cs.count c = (css.map (List.count c)).sum) := by
  have hget : Item.getAll (pySetBuild [] looked) = .ok cs := by
    unfold normalize_components at hn
    rw [hl] at hn
    simpa [Except.bind] using hn
  refine ⟨lookupItems_ok_forall2 reg names looked hl, ?_, ?_, ?_⟩
  · exact pySetBuild_nodup looked [] (by simp)
  · intro o
    rw [pySetBuild_oids]
    simp
  · obtain ⟨css, hf, hcs⟩ := getAll_ok_characterization _ _ hget
    exact ⟨css, hf, hcs, fun c => by rw [hcs]; exact List.count_flatten c css⟩

/-- Witness for the amended C1 at a concrete input. -/
theorem normalize_components_dedups_by_item_identity_witness :
    List.Forall₂ (fun n it => dictLookup wReg n = some it) ["a"] [.comp wComp] ∧
    ((pySetBuild [] [Item.comp wComp]).map Item.oid).Nodup ∧
    (∀ o, o ∈ (pySetBuild [] [Item.comp wComp]).map Item.oid ↔
        o ∈ [Item.comp wComp].map Item.oid) ∧
    (∃ css,
      List.Forall₂ (fun it cs' => it.get_components = .ok cs')
        (pySetBuild [] [Item.comp wComp]) css ∧
      [wComp] = css.flatten ∧
      ∀ c : Component, [wComp].count c = (css.map (List.count c)).sum) :=
  normalize_components_dedups_by_item_identity wReg ["a"] [.comp wComp] [wComp]
    rfl rfl

/-! ## Claim C4 -/

/-- C4: a requested name absent from the Name Registry makes the
invocation fail (the `KeyError` from the dict lookup inside
`normalize_components` propagates out of the command handler) before any
notice is printed and before any external process is spawned: the
scheduler is never reached, so the set of executed events is empty, for
build, push and build-and-push alike. -/
theorem unknown_name_fails_before_any_spawn (pick : Nat → Nat)
    (world : List String → Nat) (reg : List (String × Item))
    (names : List String) (registry_url project_name image_tag : String)
    (h : ∃ n ∈ names, dictLookup reg n = none) :
    (∃ e, cmd_build pick world reg names = .error e) ∧
    spawnedEvents (cmd_build pick world reg names) = [] ∧
    noticesOf (cmd_build pick world reg names) = [] ∧
    spawnedEvents
      (cmd_push pick world reg names registry_url project_name image_tag) = [] ∧
    spawnedEvents
      (cmd_build_and_push pick world reg names registry_url project_name
        image_tag) = [] := by
  obtain ⟨e, he⟩ := lookupItems_error_of_unknown reg names h
  have hn : normalize_components reg names = .error e := by
    unfold normalize_components
    rw [he]
    rfl
  have hcb : cmd_build pick world reg names = .error e := by
    unfold cmd_build
    rw [hn]
    rfl
  have hcp : cmd_push pick world reg names registry_url project_name image_tag
      = .error e := by
    unfold cmd_push
    rw [hn]
    rfl
  have hcbp : cmd_build_and_push pick world reg names registry_url
      project_name image_tag = .error e := by
    unfold cmd_build_and_push
    rw [hn]
    rfl
  exact ⟨⟨e, hcb⟩, by rw [hcb]; rfl, by rw [hcb]; rfl, by rw [hcp]; rfl,
    by rw [hcbp]; rfl⟩

/-- Witness for C4: requesting the unknown name `nope` against the loaded
example registry. -/
theorem unknown_name_fails_before_any_spawn_witness :
    (∃ e, cmd_build (fun _ => 0) (fun _ => 0) exampleRegistry
        ["all", "nope"] = .error e) ∧
    spawnedEvents (cmd_build (fun _ => 0) (fun _ => 0) exampleRegistry
        ["all", "nope"]) = [] ∧
    noticesOf (cmd_build (fun _ => 0) (fun _ => 0) exampleRegistry
        ["all", "nope"]) = [] ∧
    spawnedEvents (cmd_push (fun _ => 0) (fun _ => 0) exampleRegistry
        ["all", "nope"] "r" "p" "t") = [] ∧
    spawnedEvents (cmd_build_and_push (fun _ => 0) (fun _ => 0)
        exampleRegistry ["all", "nope"] "r" "p" "t") = [] :=
  unknown_name_fails_before_any_spawn (fun _ => 0) (fun _ => 0)
    exampleRegistry ["all", "nope"] "r" "p" "t"
    ⟨"nope", by simp, rfl⟩

/-! ## Support-flag independence of resolution -/

theorem mapItem_oid (f : Bool → Bool) (it : Item) :
    (mapItem f it).oid = it.oid := by
  cases it <;> rfl

theorem mapItems_eq_map (f : Bool → Bool) :
    ∀ l : List Item, mapItems f l = l.map (mapItem f) := by
  intro l
  induction l with
  | nil => rfl
  | cons i rest ih => rw [mapItems, ih, List.map_cons]

mutual

theorem mapItem_get_components (f : Bool → Bool) (it : Item) :
    (mapItem f it).get_components
      = (it.get_components).map (List.map (mapComp f)) := by
  cases it with
  | comp c => rfl
  | group o n incl al =>
      show Item.getAll (mapItems f incl)
        = (Item.getAll incl).map (List.map (mapComp f))
      exact mapItems_getAll f incl
  | strRef s => rfl

theorem mapItems_getAll (f : Bool → Bool) (l : List Item) :
    Item.getAll (mapItems f l) = (Item.getAll l).map (List.map (mapComp f)) := by
  cases l with
  | nil => rfl
  | cons i rest =>
      show Item.getAll (mapItem f i :: mapItems f rest) = _
      rw [Item.getAll, Item.getAll]
      rw [mapItem_get_components f i, mapItems_getAll f rest]
      cases h : i.get_components with
      | error e => rfl
      | ok cs =>
          cases h2 : Item.getAll rest with
          | error e => rfl
          | ok cs2 =>
              show Except.ok (List.map (mapComp f) cs ++ List.map (mapComp f) cs2)
                = Except.map (List.map (mapComp f)) (Except.ok (cs ++ cs2))
              rw [← List.map_append]
              rfl

end

theorem getAll_map_mapItem (f : Bool → Bool) (l : List Item) :
    Item.getAll (l.map (mapItem f))
      = (Item.getAll l).map (List.map (mapComp f)) := by
  rw [← mapItems_eq_map, mapItems_getAll]

theorem dictLookup_mapRegistry (f : Bool → Bool)
    (reg : List (String × Item)) (n : String) :
    dictLookup (mapRegistry f reg) n = (dictLookup reg n).map (mapItem f) := by
  induction reg with
  | nil => rfl
  | cons p rest ih =>
      obtain ⟨k, v⟩ := p
      by_cases h : k = n <;> simp [mapRegistry, dictLookup, h] <;>
        simpa [mapRegistry] using ih

theorem lookupItems_mapRegistry (f : Bool → Bool)
    (reg : List (String × Item)) :
    ∀ names, lookupItems (mapRegistry f reg) names
      = (lookupItems reg names).map (List.map (mapItem f)) := by
  intro names
  induction names with
  | nil => rfl
  | cons n rest ih =>
      simp only [lookupItems, dictLookup_mapRegistry]
      cases hd : dictLookup reg n with
      | none => rfl
      | some it =>
          simp only [Option.map_some]
          rw [ih]
          cases hr : lookupItems reg rest with
          | error e => rfl
          | ok items => simp [Except.map, Except.bind, Except.pure]

theorem pySetInsert_map (f : Bool → Bool) (s : List Item) (i : Item) :
    pySetInsert (s.map (mapItem f)) (mapItem f i)
      = (pySetInsert s i).map (mapItem f) := by
  have hc : ((s.map (mapItem f)).any (fun j => j.oid = (mapItem f i).oid))
      = s.any (fun j => j.oid = i.oid) := by
    rw [List.any_map]
    congr 1
    funext j
    simp [Function.comp, mapItem_oid]
  cases h : s.any (fun j => j.oid = i.oid) with
  | true => simp [pySetInsert, hc, h]
  | false => simp [pySetInsert, hc, h]

theorem pySetBuild_map (f : Bool → Bool) :
    ∀ (l acc : List Item),
      pySetBuild (acc.map (mapItem f)) (l.map (mapItem f))
        = (pySetBuild acc l).map (mapItem f) := by
  intro l
  induction l with
  | nil => intro acc; rfl
  | cons i rest ih =>
      intro acc
      simp only [List.map_cons, pySetBuild]
      rw [pySetInsert_map, ih]

/-- Resolution is blind to the support flag: relabelling `is_supported`
throughout the registry commutes with `normalize_components`.  In
particular no component is ever dropped (or added) because of its flag. -/
theorem normalize_components_mapRegistry (f : Bool → Bool)
    (reg : List (String × Item)) (names : List String) :
    normalize_components (mapRegistry f reg) names
      = (normalize_components reg names).map (List.map (mapComp f)) := by
  unfold normalize_components
  rw [lookupItems_mapRegistry]
  cases h : lookupItems reg names with
  | error e => rfl
  | ok looked =>
      have hset : pySetBuild [] (looked.map (mapItem f))
          = (pySetBuild [] looked).map (mapItem f) := by
        have := pySetBuild_map f looked []
        simpa using this
      show Item.getAll (pySetBuild [] (looked.map (mapItem f)))
        = Except.map (List.map (mapComp f)) (Item.getAll (pySetBuild [] looked))
      rw [hset, getAll_map_mapItem]

/-! ## The component loop of the command handlers -/

theorem composeLoop_eq (mk : Component → List Ev) :
    ∀ comps : List Component,
      composeLoop mk comps
        = ((comps.filter (fun c => !c.is_supported)).map noticeStr,
           (comps.filter (fun c => c.is_supported)).map mk) := by
  intro comps
  induction comps with
  | nil => rfl
  | cons c rest ih =>
      cases h : c.is_supported <;>
        simp [composeLoop, ih, h, List.filter_cons]

/-! ## Claim C5 (counterexample) -/

/-- C5 counterexample: with the registry `uReg` (group `all` containing
the supported `vComp` and the unsupported `uComp`), the request
`["all", "u"]` resolves to `[vComp, uComp, uComp]` (claim C1), and
`cmd_build` prints the "not currently supported" notice for `uComp`
twice — once per occurrence in the resolved list — not exactly once. -/
theorem unsupported_component_two_notices_counterexample :
    uComp.is_supported = false ∧
    noticesOf (cmd_build (fun _ => 0) (fun _ => 0) uReg ["all", "u"])
      = [noticeStr uComp, noticeStr uComp] := by
  exact ⟨rfl, rfl⟩

/-! ## Scheduler lemmas -/

theorem projTrace_append (i : Nat) (t1 t2 : List (Nat × Ev)) :
    projTrace i (t1 ++ t2) = projTrace i t1 ++ projTrace i t2 := by
  simp [projTrace, List.filterMap_append]

theorem projTrace_single_eq (i : Nat) (e : Ev) :
    projTrace i [(i, e)] = [e] := by
  simp [projTrace]

theorem projTrace_single_ne (i j : Nat) (e : Ev) (h : j ≠ i) :
    projTrace i [(j, e)] = [] := by
  simp [projTrace, h]

theorem schedStep_proj (choice : Nat) (s : SchedState) (i : Nat) :
    projTrace i (schedStep choice s).trace
        ++ ((schedStep choice s).tasks[i]?).getD []
      = projTrace i s.trace ++ (s.tasks[i]?).getD [] := by
  cases hact : (activeIdxs s.tasks)[choice % (activeIdxs s.tasks).length]? with
  | none => simp [schedStep, hact]
  | some j =>
      cases htj : s.tasks[j]? with
      | none => simp [schedStep, hact, htj]
      | some l =>
          cases l with
          | nil => simp [schedStep, hact, htj]
          | cons e rest =>
              by_cases hij : i = j
              · subst hij
                have hlt : i < s.tasks.length := by
                  by_contra hcl
                  push_neg at hcl
                  rw [List.getElem?_eq_none hcl] at htj
                  cases htj
                simp only [schedStep, hact, htj]
                rw [List.getElem?_set_eq hlt, projTrace_append,
                  projTrace_single_eq]
                simp
              · simp only [schedStep, hact, htj]
                rw [List.getElem?_set_ne (fun hh => hij hh.symm),
                  projTrace_append,
                  projTrace_single_ne i j e (fun hh => hij hh.symm)]
                simp

theorem schedRun_proj (pick : Nat → Nat) :
    ∀ (n : Nat) (s : SchedState) (i : Nat),
      projTrace i (schedRun pick n s).trace
          ++ ((schedRun pick n s).tasks[i]?).getD []
        = projTrace i s.trace ++ (s.tasks[i]?).getD [] := by
  intro n
  induction n with
  | zero => intro s i; rfl
  | succ n ih =>
      intro s i
      rw [schedRun]
      rw [ih (schedStep (pick n) s) i, schedStep_proj]

theorem totalRem_eq_zero (tasks : List (List Ev)) :
    totalRem tasks = 0 ↔ ∀ l ∈ tasks, l = [] := by
  simp [totalRem, List.sum_eq_zero_iff, List.length_eq_zero]

theorem activeIdxs_nil_iff (tasks : List (List Ev)) :
    activeIdxs tasks = [] ↔ ∀ l ∈ tasks, l = [] := by
  unfold activeIdxs
  rw [List.filter_eq_nil]
  constructor
  · intro h l hl
    obtain ⟨i, hi⟩ := List.get_of_mem hl
    have hlen : i.1 < tasks.length := i.2
    have hget : tasks.getD i.1 [] = l := by
      rw [List.getD_eq_getElem?_getD, List.getElem?_eq_getElem hlen]
      simpa using congrArg some hi
    have := h i.1 (List.mem_range.2 hlen)
    simp only [Bool.not_eq_true, List.isEmpty_eq_true] at this
    rw [hget] at this
    simpa using this
  · intro h i hi
    have hlen : i < tasks.length := List.mem_range.1 hi
    have : tasks.getD i [] = [] := by
      rw [List.getD_eq_getElem?_getD, List.getElem?_eq_getElem hlen]
      exact h _ (List.getElem_mem hlen)
    rw [List.getD_eq_getElem?_getD] at this
    simp [this]

theorem schedStep_id_of_done (choice : Nat) (s : SchedState)
    (h : activeIdxs s.tasks = []) : schedStep choice s = s := by
  unfold schedStep
  rw [h]
  rfl

theorem totalRem_set :
    ∀ (tasks : List (List Ev)) (j : Nat) (e : Ev) (rest : List Ev),
      tasks[j]? = some (e :: rest) →
      totalRem (tasks.set j rest) + 1 = totalRem tasks := by
  intro tasks
  induction tasks with
  | nil => intro j e rest h; cases j <;> cases h
  | cons hd tl ih =>
      intro j e rest h
      cases j with
      | zero =>
          simp only [List.getElem?_cons_zero, Option.some.injEq] at h
          subst h
          simp [totalRem, List.set]
          omega
      | succ j =>
          simp only [List.getElem?_cons_succ] at h
          have := ih j e rest h
          simp only [totalRem, List.set, List.map_cons, List.sum_cons] at this ⊢
          omega

theorem schedStep_progress (choice : Nat) (s : SchedState)
    (h : activeIdxs s.tasks ≠ []) :
    totalRem (schedStep choice s).tasks + 1 = totalRem s.tasks := by
  have hlen : 0 < (activeIdxs s.tasks).length := List.length_pos.2 h
  have hmod : choice % (activeIdxs s.tasks).length
      < (activeIdxs s.tasks).length := Nat.mod_lt _ hlen
  have hact : (activeIdxs s.tasks)[choice % (activeIdxs s.tasks).length]?
      = some ((activeIdxs s.tasks)[choice % (activeIdxs s.tasks).length]) :=
    List.getElem?_eq_getElem hmod
  set j := (activeIdxs s.tasks)[choice % (activeIdxs s.tasks).length] with hj
  have hjmem : j ∈ activeIdxs s.tasks := by
    rw [hj]
    exact List.getElem_mem hmod
  have hjfilter := List.mem_filter.1 hjmem
  have hjlen : j < s.tasks.length := List.mem_range.1 hjfilter.1
  have hjne : s.tasks.getD j [] ≠ [] := by
    have := hjfilter.2
    simp only [Bool.not_eq_true', List.isEmpty_eq_false] at this
    simpa using this
  have hgetD : s.tasks.getD j [] = s.tasks[j] := by
    rw [List.getD_eq_getElem?_getD, List.getElem?_eq_getElem hjlen]
    rfl
  have hget : s.tasks[j]? = some (s.tasks[j]) :=
    List.getElem?_eq_getElem hjlen
  cases hl : s.tasks[j] with
  | nil => rw [hgetD, hl] at hjne; exact absurd rfl hjne
  | cons e rest =>
      rw [hl] at hget
      simp only [schedStep, hact, hget]
      exact totalRem_set s.tasks j e rest hget

theorem schedRun_done (pick : Nat → Nat) :
    ∀ (n : Nat) (s : SchedState), totalRem s.tasks ≤ n →
      totalRem (schedRun pick n s).tasks = 0 := by
  intro n
  induction n with
  | zero => intro s h; simpa [schedRun] using Nat.le_zero.1 h
  | succ n ih =>
      intro s h
      show totalRem (schedRun pick n (schedStep (pick n) s)).tasks = 0
      by_cases hd : activeIdxs s.tasks = []
      · have h0 : totalRem s.tasks = 0 :=
          (totalRem_eq_zero _).2 ((activeIdxs_nil_iff _).1 hd)
        rw [schedStep_id_of_done _ _ hd]
        exact ih s (by omega)
      · have := schedStep_progress (pick n) s hd
        exact ih _ (by omega)

/-- What the wait-for-all barrier guarantees: after
`run_multiple_futures` returns, every task has run to completion, and the
events executed on behalf of task `i` are exactly its event list, in task
order. -/
theorem run_multiple_futures_spec (pick : Nat → Nat)
    (tasks : List (List Ev)) :
    (∀ l ∈ (run_multiple_futures pick tasks).tasks, l = []) ∧
    (∀ i, projTrace i (run_multiple_futures pick tasks).trace
        = (tasks[i]?).getD []) := by
  have hdone : totalRem (run_multiple_futures pick tasks).tasks = 0 :=
    schedRun_done pick (totalRem tasks) { tasks := tasks, trace := [] }
      (Nat.le_refl _)
  have hempty := (totalRem_eq_zero _).1 hdone
  refine ⟨hempty, ?_⟩
  intro i
  have hinv := schedRun_proj pick (totalRem tasks)
    { tasks := tasks, trace := [] } i
  have hfin : (((run_multiple_futures pick tasks).tasks[i]?)).getD []
      = [] := by
    cases hg : (run_multiple_futures pick tasks).tasks[i]? with
    | none => rfl
    | some l =>
        have : l ∈ (run_multiple_futures pick tasks).tasks :=
          List.getElem?_mem hg
        simp [hempty l this]
  rw [show schedRun pick (totalRem tasks) { tasks := tasks, trace := [] }
      = run_multiple_futures pick tasks from rfl] at hinv
  rw [hfin, List.append_nil] at hinv
  simpa [projTrace] using hinv

/-- Every executed event belongs to the task it is tagged with. -/
theorem run_multiple_futures_mem_trace (pick : Nat → Nat)
    (tasks : List (List Ev)) (p : Nat × Ev)
    (hp : p ∈ (run_multiple_futures pick tasks).trace) :
    p.2 ∈ (tasks[p.1]?).getD [] := by
  have hproj := (run_multiple_futures_spec pick tasks).2 p.1
  rw [← hproj]
  exact List.mem_filterMap.2 ⟨p, hp, by simp⟩

/-! ## Claim C3 -/

/-- C3: the batch executor is a wait-for-all barrier.  For every batch of
operations and every interleaving the event loop can produce — in
particular one where some operation `i` has a command exiting non-zero
while every other operation succeeds — control returns only once every
task has no events left, and every operation's full event sequence was
executed: the failing operation neither stops the others from running nor
from completing, and is itself run to completion
(`asyncio.wait` defaults to `ALL_COMPLETED` and cancels nothing). -/
theorem run_multiple_futures_waits_for_all (pick : Nat → Nat)
    (ops : List (List Ev)) (i : Nat)
    (hfail : opFails ((ops[i]?).getD []) = true)
    (hothers : ∀ j, j < ops.length → j ≠ i →
        opSucceeds ((ops[j]?).getD []) = true) :
    (∀ l ∈ (run_multiple_futures pick ops).tasks, l = []) ∧
    (∀ j, projTrace j (run_multiple_futures pick ops).trace
        = (ops[j]?).getD []) :=
  run_multiple_futures_spec pick ops

/-- Witness for C3: two single-command operations, the first spawning a
command that exits 1, the second exiting 0; under the round-robin
interleaving both run to completion. -/
theorem run_multiple_futures_waits_for_all_witness :
    (∀ l ∈ (run_multiple_futures (fun n => n)
        [[.spawn ["fail"], .waited ["fail"] 1],
         [.spawn ["okay"], .waited ["okay"] 0]]).tasks, l = []) ∧
    (∀ j, projTrace j (run_multiple_futures (fun n => n)
        [[.spawn ["fail"], .waited ["fail"] 1],
         [.spawn ["okay"], .waited ["okay"] 0]]).trace
      = ([[Ev.spawn ["fail"], Ev.waited ["fail"] 1],
          [Ev.spawn ["okay"], Ev.waited ["okay"] 0]][j]?).getD []) :=
  run_multiple_futures_waits_for_all (fun n => n)
    [[.spawn ["fail"], .waited ["fail"] 1],
     [.spawn ["okay"], .waited ["okay"] 0]] 0
    (by decide) (by decide)

/-! ## Claim C7 -/

/-- C7: within one component's operation the composed commands execute
strictly in source order — build, tag, push for build-and-push; tag, push
for push — with each command's spawn, both stream drains and awaited exit
all preceding the next command's spawn (the structure of `cmdEvents`,
mirroring `stream_subprocess`, which awaits both drains and then the exit
before returning).  This holds under every interleaving `pick` of the
batch: whatever events of other components are interleaved, the subtrace
of component `i` is exactly its own ordered three-command (resp.
two-command) sequence. -/
theorem per_component_sequence_never_reordered (pick : Nat → Nat)
    (world : List String → Nat) (comps : List Component)
    (registry_url project_name image_tag : String) (i : Nat) (c : Component)
    (hc : comps[i]? = some c) :
    projTrace i (run_multiple_futures pick
        (comps.map (fun c =>
          buildTagPushEvents world c registry_url project_name image_tag))).trace
      = cmdEvents world (buildCmd c)
        ++ cmdEvents world
            (tagCmd c (full_image_name registry_url project_name
              c.image_name image_tag))
        ++ cmdEvents world
            (pushCmd (full_image_name registry_url project_name
              c.image_name image_tag)) ∧
    projTrace i (run_multiple_futures pick
        (comps.map (fun c =>
          tagPushEvents world c registry_url project_name image_tag))).trace
      = cmdEvents world
          (tagCmd c (full_image_name registry_url project_name
            c.image_name image_tag))
        ++ cmdEvents world
            (pushCmd (full_image_name registry_url project_name
              c.image_name image_tag)) := by
  constructor
  · have h1 := (run_multiple_futures_spec pick
      (comps.map (fun c =>
        buildTagPushEvents world c registry_url project_name image_tag))).2 i
    rw [List.getElem?_map, hc] at h1
    rw [h1]
    rfl
  · have h2 := (run_multiple_futures_spec pick
      (comps.map (fun c =>
        tagPushEvents world c registry_url project_name image_tag))).2 i
    rw [List.getElem?_map, hc] at h2
    rw [h2]
    rfl

/-- Witness for C7: a two-component batch under round-robin interleaving,
instantiated for the first component. -/
theorem per_component_sequence_never_reordered_witness :
    projTrace 0 (run_multiple_futures (fun n => n)
        ([vComp, uComp].map (fun c =>
          buildTagPushEvents (fun _ => 0) c "r" "p" "t"))).trace
      = cmdEvents (fun _ => 0) (buildCmd vComp)
        ++ cmdEvents (fun _ => 0)
            (tagCmd vComp (full_image_name "r" "p" vComp.image_name "t"))
        ++ cmdEvents (fun _ => 0)
            (pushCmd (full_image_name "r" "p" vComp.image_name "t")) ∧
    projTrace 0 (run_multiple_futures (fun n => n)
        ([vComp, uComp].map (fun c =>
          tagPushEvents (fun _ => 0) c "r" "p" "t"))).trace
      = cmdEvents (fun _ => 0)
          (tagCmd vComp (full_image_name "r" "p" vComp.image_name "t"))
        ++ cmdEvents (fun _ => 0)
            (pushCmd (full_image_name "r" "p" vComp.image_name "t")) :=
  per_component_sequence_never_reordered (fun n => n) (fun _ => 0)
    [vComp, uComp] "r" "p" "t" 0 vComp rfl

/-! ## Claim C5 (amended theorem) -/

/-- An ok result of the guarded run means the batch was nonempty and the
state is the event loop's completed run. -/
theorem run_multiple_futuresE_ok (pick : Nat → Nat) (tasks : List (List Ev))
    (st : SchedState) (h : run_multiple_futuresE pick tasks = .ok st) :
    st = run_multiple_futures pick tasks := by
  unfold run_multiple_futuresE at h
  cases he : tasks.isEmpty with
  | true => rw [if_pos he] at h; cases h
  | false =>
      rw [if_neg (by simp [he])] at h
      exact (Except.ok.inj h).symm

/-- Shared tail of the three command handlers: when the composed batch ran
(an ok result), the notices are exactly one per unsupported occurrence of
the resolved list, in order, and every executed event belongs to a
*supported* component's operation. -/
theorem composeRun_ok (pick : Nat → Nat) (mk : Component → List Ev)
    (comps : List Component) (st : SchedState)
    (hst : run_multiple_futuresE pick (composeLoop mk comps).2 = .ok st) :
    (composeLoop mk comps).1
      = (comps.filter (fun c => !c.is_supported)).map noticeStr ∧
    ∀ p ∈ st.trace, ∃ c, c ∈ comps ∧ c.is_supported = true ∧ p.2 ∈ mk c := by
  have hst' := run_multiple_futuresE_ok pick _ st hst
  constructor
  · rw [composeLoop_eq]
  · intro p hp
    rw [hst'] at hp
    have hmem := run_multiple_futures_mem_trace pick _ p hp
    cases hg : (composeLoop mk comps).2[p.1]? with
    | none => rw [hg] at hmem; cases hmem
    | some t =>
        rw [hg] at hmem
        have ht : t ∈ (composeLoop mk comps).2 := List.getElem?_mem hg
        rw [composeLoop_eq] at ht
        obtain ⟨c, hc, hct⟩ := List.mem_map.1 ht
        obtain ⟨hcc, hcs⟩ := List.mem_filter.1 hc
        exact ⟨c, hcc, by simpa using hcs, hct ▸ hmem⟩

/-- C5 (amended): an unsupported component is retained by resolution —
`normalize_components` commutes with any relabelling of the support flags,
so it never filters on them — and every one of the three operation
handlers (build, push, build-and-push) skips it: whenever a handler runs
its batch, the printed notices are exactly one per unsupported
*occurrence* in the resolved list (hence exactly one when the component
resolves once, but one per occurrence when, as in the counterexample,
overlapping requests make it occur twice), and every event the batch
executes belongs to a *supported* component's operation, so no process is
ever spawned for an unsupported one.  (When every resolved component is
unsupported the futures list is empty and the handler crashes in
`asyncio.wait`'s empty-batch `ValueError` after printing the notices —
the handlers' error results cover that case, and still no process is
spawned.) -/
theorem unsupported_skipped_one_notice_per_occurrence (f : Bool → Bool)
    (pick : Nat → Nat) (world : List String → Nat)
    (reg : List (String × Item)) (names : List String)
    (registry_url project_name image_tag : String)
    (comps : List Component)
    (hn : normalize_components reg names = .ok comps) :
    normalize_components (mapRegistry f reg) names
      = (normalize_components reg names).map (List.map (mapComp f)) ∧
    (∀ ns st, cmd_build pick world reg names = .ok (ns, st) →
      ns = (comps.filter (fun c => !c.is_supported)).map noticeStr ∧
      ∀ p ∈ st.trace, ∃ c, c ∈ comps ∧ c.is_supported = true ∧
        p.2 ∈ buildEvents world c) ∧
    (∀ ns st, cmd_push pick world reg names registry_url project_name image_tag
        = .ok (ns, st) →
      ns = (comps.filter (fun c => !c.is_supported)).map noticeStr ∧
      ∀ p ∈ st.trace, ∃ c, c ∈ comps ∧ c.is_supported = true ∧
        p.2 ∈ tagPushEvents world c registry_url project_name image_tag) ∧
    (∀ ns st, cmd_build_and_push pick world reg names registry_url
        project_name image_tag = .ok (ns, st) →
      ns = (comps.filter (fun c => !c.is_supported)).map noticeStr ∧
      ∀ p ∈ st.trace, ∃ c, c ∈ comps ∧ c.is_supported = true ∧
        p.2 ∈ buildTagPushEvents world c registry_url project_name image_tag) := by
  refine ⟨normalize_components_mapRegistry f reg names, ?_, ?_, ?_⟩
  · intro ns st hb
    unfold cmd_build at hb
    rw [hn] at hb
    have hb' : Except.bind
        (run_multiple_futuresE pick (composeLoop (buildEvents world) comps).2)
        (fun st => Except.ok ((composeLoop (buildEvents world) comps).1, st))
      = Except.ok (ns, st) := hb
    cases hr : run_multiple_futuresE pick
        (composeLoop (buildEvents world) comps).2 with
    | error e => rw [hr] at hb'; cases hb'
    | ok st' =>
        rw [hr] at hb'
        cases hb'
        exact composeRun_ok pick (buildEvents world) comps _ hr
  · intro ns st hb
    unfold cmd_push at hb
    rw [hn] at hb
    have hb' : Except.bind
        (run_multiple_futuresE pick
          (composeLoop (fun c => tagPushEvents world c registry_url
            project_name image_tag) comps).2)
        (fun st => Except.ok
          ((composeLoop (fun c => tagPushEvents world c registry_url
            project_name image_tag) comps).1, st))
      = Except.ok (ns, st) := hb
    cases hr : run_multiple_futuresE pick
        (composeLoop (fun c => tagPushEvents world c registry_url project_name
          image_tag) comps).2 with
    | error e => rw [hr] at hb'; cases hb'
    | ok st' =>
        rw [hr] at hb'
        cases hb'
        exact composeRun_ok pick
          (fun c => tagPushEvents world c registry_url project_name image_tag)
          comps _ hr
  · intro ns st hb
    unfold cmd_build_and_push at hb
    rw [hn] at hb
    have hb' : Except.bind
        (run_multiple_futuresE pick
          (composeLoop (fun c => buildTagPushEvents world c registry_url
            project_name image_tag) comps).2)
        (fun st => Except.ok
          ((composeLoop (fun c => buildTagPushEvents world c registry_url
            project_name image_tag) comps).1, st))
      = Except.ok (ns, st) := hb
    cases hr : run_multiple_futuresE pick
        (composeLoop (fun c => buildTagPushEvents world c registry_url
          project_name image_tag) comps).2 with
    | error e => rw [hr] at hb'; cases hb'
    | ok st' =>
        rw [hr] at hb'
        cases hb'
        exact composeRun_ok pick
          (fun c => buildTagPushEvents world c registry_url project_name
            image_tag)
          comps _ hr

/-- Witness for the amended C5: requesting `["all"]` against `uReg`
resolves to `[vComp, uComp]` — the unsupported `uComp` is retained and
noticed exactly once, and only the supported `vComp` contributes a task,
so the composed batch is nonempty and the handlers complete normally. -/
theorem unsupported_skipped_one_notice_per_occurrence_witness :
    normalize_components (mapRegistry (fun _ => false) uReg) ["all"]
      = (normalize_components uReg ["all"]).map
          (List.map (mapComp (fun _ => false))) ∧
    (∀ ns st, cmd_build (fun _ => 0) (fun _ => 0) uReg ["all"] = .ok (ns, st) →
      ns = ([vComp, uComp].filter (fun c => !c.is_supported)).map noticeStr ∧
      ∀ p ∈ st.trace, ∃ c, c ∈ [vComp, uComp] ∧ c.is_supported = true ∧
        p.2 ∈ buildEvents (fun _ => 0) c) ∧
    (∀ ns st, cmd_push (fun _ => 0) (fun _ => 0) uReg ["all"] "r" "p" "t"
        = .ok (ns, st) →
      ns = ([vComp, uComp].filter (fun c => !c.is_supported)).map noticeStr ∧
      ∀ p ∈ st.trace, ∃ c, c ∈ [vComp, uComp] ∧ c.is_supported = true ∧
        p.2 ∈ tagPushEvents (fun _ => 0) c "r" "p" "t") ∧
    (∀ ns st, cmd_build_and_push (fun _ => 0) (fun _ => 0) uReg ["all"]
        "r" "p" "t" = .ok (ns, st) →
      ns = ([vComp, uComp].filter (fun c => !c.is_supported)).map noticeStr ∧
      ∀ p ∈ st.trace, ∃ c, c ∈ [vComp, uComp] ∧ c.is_supported = true ∧
        p.2 ∈ buildTagPushEvents (fun _ => 0) c "r" "p" "t") :=
  unsupported_skipped_one_notice_per_occurrence (fun _ => false) (fun _ => 0)
    (fun _ => 0) uReg ["all"] "r" "p" "t" [vComp, uComp] rfl

/-! ## Loading never produces an unsupported component (claim C6) -/

theorem buildComps_supported :
    ∀ (cs : List CompConfig) (n : Nat) (c : Component),
      c ∈ buildComps n cs → c.is_supported = true := by
  intro cs
  induction cs with
  | nil => intro n c h; cases h
  | cons c0 rest ih =>
      intro n c h
      rcases List.mem_cons.1 h with h | h
      · subst h; rfl
      · exact ih (n + 1) c h

theorem getAll_map_comp :
    ∀ xs : List Component, Item.getAll (xs.map Item.comp) = .ok xs := by
  intro xs
  induction xs with
  | nil => rfl
  | cons c rest ih =>
      show Item.getAll (Item.comp c :: rest.map Item.comp) = _
      rw [Item.getAll]
      rw [show Item.get_components (Item.comp c) = .ok [c] from rfl, ih]
      rfl

theorem getAll_map_strRef (xs : List String) (cs : List Component)
    (h : Item.getAll (xs.map Item.strRef) = .ok cs) : cs = [] := by
  cases xs with
  | nil =>
      rw [show (List.map Item.strRef [] : List Item) = [] from rfl,
        Item.getAll] at h
      cases h
      rfl
  | cons x rest =>
      rw [show (x :: rest).map Item.strRef
          = Item.strRef x :: rest.map Item.strRef from rfl, Item.getAll] at h
      rw [show Item.get_components (Item.strRef x)
          = .error (x ++ " has no attribute get_components") from rfl] at h
      cases h

theorem mem_dictInsert :
    ∀ (d : List (String × Item)) (k : String) (v : Item) (p : String × Item),
      p ∈ dictInsert d k v → p ∈ d ∨ p = (k, v) := by
  intro d
  induction d with
  | nil =>
      intro k v p h
      simp only [dictInsert, List.mem_singleton] at h
      exact Or.inr h
  | cons q rest ih =>
      intro k v p h
      obtain ⟨k0, v0⟩ := q
      by_cases hk : k0 = k
      · subst hk
        simp only [dictInsert, if_pos rfl] at h
        rcases List.mem_cons.1 h with h | h
        · exact Or.inr h
        · exact Or.inl (List.mem_cons.2 (Or.inr h))
      · simp only [dictInsert, if_neg hk] at h
        rcases List.mem_cons.1 h with h | h
        · exact Or.inl (List.mem_cons.2 (Or.inl h))
        · rcases ih k v p h with h | h
          · exact Or.inl (List.mem_cons.2 (Or.inr h))
          · exact Or.inr h

theorem mem_foldl_dictInsert :
    ∀ (regs : List (String × Item)) (d : List (String × Item))
      (p : String × Item),
      p ∈ regs.foldl (fun d kv => dictInsert d kv.1 kv.2) d →
      p ∈ d ∨ p ∈ regs := by
  intro regs
  induction regs with
  | nil => intro d p h; exact Or.inl h
  | cons kv rest ih =>
      intro d p h
      rcases ih (dictInsert d kv.1 kv.2) p h with h | h
      · rcases mem_dictInsert d kv.1 kv.2 p h with h | h
        · exact Or.inl h
        · refine Or.inr (List.mem_cons.2 (Or.inl ?_))
          rw [h]
      · exact Or.inr (List.mem_cons.2 (Or.inr h))

theorem compRegs_val :
    ∀ (comps : List Component) (p : String × Item), p ∈ compRegs comps →
      ∃ c ∈ comps, p.2 = Item.comp c := by
  intro comps
  induction comps with
  | nil => intro p h; cases h
  | cons c rest ih =>
      intro p h
      simp only [compRegs, List.mem_cons, List.mem_append] at h
      rcases h with (h | h) | h
      · exact ⟨c, List.mem_cons_self _ _, by rw [h]⟩
      · obtain ⟨a, _, ha⟩ := List.mem_map.1 h
        exact ⟨c, List.mem_cons_self _ _, by rw [← ha]⟩
      · obtain ⟨c', hc', he⟩ := ih p h
        exact ⟨c', List.mem_cons.2 (Or.inr hc'), he⟩

theorem groupRegs_val :
    ∀ (gl : List Item) (p : String × Item), p ∈ groupRegs gl →
      p.2 ∈ gl := by
  intro gl
  induction gl with
  | nil => intro p h; cases h
  | cons g rest ih =>
      intro p h
      simp only [groupRegs, List.mem_cons, List.mem_append] at h
      rcases h with (h | h) | h
      · rw [h]; exact List.mem_cons_self _ _
      · obtain ⟨a, _, ha⟩ := List.mem_map.1 h
        rw [← ha]
        exact List.mem_cons_self _ _
      · exact List.mem_cons.2 (Or.inr (ih p h))

theorem mem_addByType :
    ∀ (m : List (String × List Component)) (t : String) (c : Component)
      (t' : String) (cs' : List Component),
      (t', cs') ∈ addByType t c m → ∀ c' ∈ cs',
        (∃ cs0, (t', cs0) ∈ m ∧ c' ∈ cs0) ∨ c' = c := by
  intro m
  induction m with
  | nil =>
      intro t c t' cs' h c' hc'
      simp only [addByType, List.mem_singleton, Prod.mk.injEq] at h
      obtain ⟨ht, hcs⟩ := h
      rw [hcs] at hc'
      rcases List.mem_singleton.1 hc' with h
      exact Or.inr h
  | cons q rest ih =>
      intro t c t' cs' h c' hc'
      obtain ⟨t0, cs0⟩ := q
      rw [addByType] at h
      by_cases ht0 : t0 = t
      · rw [if_pos ht0] at h
        rcases List.mem_cons.1 h with h | h
        · simp only [Prod.mk.injEq] at h
          obtain ⟨h1, h2⟩ := h
          rw [h2] at hc'
          rcases List.mem_append.1 hc' with hh | hh
          · exact Or.inl ⟨cs0, List.mem_cons.2 (Or.inl (by rw [h1])), hh⟩
          · exact Or.inr (List.mem_singleton.1 hh)
        · exact Or.inl ⟨cs', List.mem_cons.2 (Or.inr h), hc'⟩
      · rw [if_neg ht0] at h
        rcases List.mem_cons.1 h with h | h
        · exact Or.inl ⟨cs', List.mem_cons.2 (Or.inl h), hc'⟩
        · rcases ih t c t' cs' h c' hc' with ⟨cs1, hm, hc1⟩ | h
          · exact Or.inl ⟨cs1, List.mem_cons.2 (Or.inr hm), hc1⟩
          · exact Or.inr h

theorem mem_byTypeFold :
    ∀ (l : List Component) (m : List (String × List Component))
      (t : String) (cs' : List Component),
      (t, cs') ∈ byTypeFold m l → ∀ c' ∈ cs',
        (∃ t0 cs0, (t0, cs0) ∈ m ∧ c' ∈ cs0) ∨ c' ∈ l := by
  intro l
  induction l with
  | nil =>
      intro m t cs' h c' hc'
      exact Or.inl ⟨t, cs', h, hc'⟩
  | cons c rest ih =>
      intro m t cs' h c' hc'
      rw [byTypeFold] at h
      cases htk : typeKey c with
      | none =>
          rw [htk] at h
          rcases ih m t cs' h c' hc' with h | h
          · exact Or.inl h
          · exact Or.inr (List.mem_cons.2 (Or.inr h))
      | some tk =>
          rw [htk] at h
          rcases ih (addByType tk c m) t cs' h c' hc' with ⟨t0, cs0, hm, hc0⟩ | h
          · rcases mem_addByType m tk c t0 cs0 hm c' hc0 with ⟨cs1, hm1, hc1⟩ | h
            · exact Or.inl ⟨t0, cs1, hm1, hc1⟩
            · exact Or.inr (List.mem_cons.2 (Or.inl h))
          · exact Or.inr (List.mem_cons.2 (Or.inr h))

theorem mem_buildTypeGroups :
    ∀ (btl : List (String × List Component)) (oid : Nat)
      (present : List String) (g : Item), g ∈ buildTypeGroups oid present btl →
      ∃ o t cs', (t, cs') ∈ btl ∧ g = Item.group o t (cs'.map Item.comp) [] := by
  intro btl
  induction btl with
  | nil => intro oid present g h; cases h
  | cons q rest ih =>
      intro oid present g h
      obtain ⟨t, cs⟩ := q
      rw [buildTypeGroups] at h
      by_cases hp : t ∈ present
      · rw [if_pos hp] at h
        obtain ⟨o, t', cs', hm, he⟩ := ih (oid + 1) present g h
        exact ⟨o, t', cs', List.mem_cons.2 (Or.inr hm), he⟩
      · rw [if_neg hp] at h
        rcases List.mem_cons.1 h with h | h
        · exact ⟨oid, t, cs, List.mem_cons_self _ _, h⟩
        · obtain ⟨o, t', cs', hm, he⟩ := ih (oid + 1) (present ++ [t]) g h
          exact ⟨o, t', cs', List.mem_cons.2 (Or.inr hm), he⟩

theorem mem_buildGroups :
    ∀ (gs : List GroupConfig) (n : Nat) (g : Item), g ∈ buildGroups n gs →
      ∃ (o : Nat) (nm : String) (xs : List String) (al : List String),
        g = Item.group o nm (xs.map Item.strRef) al := by
  intro gs
  induction gs with
  | nil => intro n g h; cases h
  | cons gc rest ih =>
      intro n g h
      rcases List.mem_cons.1 h with h | h
      · exact ⟨n, gc.name, gc.includes, (gc.aliases).getD [], h⟩
      · exact ih (n + 1) g h

/-- Every item reachable from a loaded registry only ever flattens to
components whose support flag is on. -/
theorem load_registry_supported (config : Config)
    (registry : List (String × Item))
    (hl : load_components config = .ok registry) :
    ∀ n it, (n, it) ∈ registry → ∀ cs, it.get_components = .ok cs →
      ∀ c ∈ cs, c.is_supported = true := by
  intro n it hmem cs hcs c hc
  obtain ⟨cs₀, hc₀⟩ : ∃ cs₀, config.components = some cs₀ := by
    cases hcc : config.components with
    | none => unfold load_components at hl; rw [hcc] at hl; cases hl
    | some cs₀ => exact ⟨cs₀, rfl⟩
  have hreg : registry
      = (registrations cs₀ ((config.groups).getD [])).foldl
          (fun d kv => dictInsert d kv.1 kv.2) [] := by
    unfold load_components at hl
    rw [hc₀] at hl
    exact (Except.ok.inj hl).symm
  rw [hreg] at hmem
  rcases mem_foldl_dictInsert _ [] _ hmem with h | h
  · cases h
  unfold registrations at h
  rcases List.mem_append.1 h with h | h
  · -- a component registration: it = .comp c', get_components = [c']
    obtain ⟨c', hc', he⟩ := compRegs_val _ _ h
    have he' : it = Item.comp c' := he
    rw [he'] at hcs
    rw [show Item.get_components (Item.comp c') = .ok [c'] from rfl] at hcs
    cases hcs
    rcases List.mem_singleton.1 hc with h
    rw [h]
    exact buildComps_supported cs₀ 0 c' hc'
  · -- a group registration
    have hit : it ∈ allGroupsOf (buildGroups 0 ((config.groups).getD []))
        (buildComps 0 cs₀) := groupRegs_val _ _ h
    unfold allGroupsOf at hit
    rcases List.mem_append.1 hit with hit | hit
    · by_cases hall : "all" ∈ (buildGroups 0 ((config.groups).getD [])).map
          Item.iname
      · rw [if_pos hall] at hit
        obtain ⟨o, nm, xs, al, he⟩ := mem_buildGroups _ 0 it hit
        rw [he] at hcs
        rw [show (Item.group o nm (xs.map Item.strRef) al).get_components
            = Item.getAll (xs.map Item.strRef) from rfl] at hcs
        rw [getAll_map_strRef xs cs hcs] at hc
        cases hc
      · rw [if_neg hall] at hit
        rcases List.mem_append.1 hit with hit | hit
        · obtain ⟨o, nm, xs, al, he⟩ := mem_buildGroups _ 0 it hit
          rw [he] at hcs
          rw [show (Item.group o nm (xs.map Item.strRef) al).get_components
              = Item.getAll (xs.map Item.strRef) from rfl] at hcs
          rw [getAll_map_strRef xs cs hcs] at hc
          cases hc
        · -- the synthetic `all` group
          rcases List.mem_singleton.1 hit with he
          rw [he] at hcs
          rw [show (Item.group (buildGroups 0 ((config.groups).getD [])).length
              "all" ((buildComps 0 cs₀).map Item.comp) []).get_components
              = Item.getAll ((buildComps 0 cs₀).map Item.comp) from rfl,
            getAll_map_comp] at hcs
          cases hcs
          exact buildComps_supported cs₀ 0 c hc
    · -- a synthetic type group
      obtain ⟨o, t, cs', hm, he⟩ := mem_buildTypeGroups _ _ _ it hit
      rw [he] at hcs
      rw [show (Item.group o t (cs'.map Item.comp) []).get_components
          = Item.getAll (cs'.map Item.comp) from rfl, getAll_map_comp] at hcs
      cases hcs
      rcases mem_byTypeFold _ [] t cs hm c hc with ⟨t0, cs0, hm0, _⟩ | h
      · cases hm0
      · exact buildComps_supported cs₀ 0 c h

theorem dictLookup_mem :
    ∀ (reg : List (String × Item)) (n : String) (it : Item),
      dictLookup reg n = some it → (n, it) ∈ reg := by
  intro reg
  induction reg with
  | nil => intro n it h; cases h
  | cons p rest ih =>
      intro n it h
      obtain ⟨k, v⟩ := p
      by_cases hk : k = n
      · subst hk
        simp only [dictLookup, if_pos rfl] at h
        cases h
        exact List.mem_cons_self _ _
      · simp only [dictLookup, if_neg hk] at h
        exact List.mem_cons.2 (Or.inr (ih n it h))

theorem lookupItems_mem (reg : List (String × Item)) :
    ∀ (names : List String) (looked : List Item),
      lookupItems reg names = .ok looked → ∀ it ∈ looked,
        ∃ n, dictLookup reg n = some it := by
  intro names
  induction names with
  | nil =>
      intro looked h it hit
      simp only [lookupItems] at h
      cases h
      cases hit
  | cons n rest ih =>
      intro looked h it hit
      simp only [lookupItems] at h
      cases hd : dictLookup reg n with
      | none => rw [hd] at h; cases h
      | some it0 =>
          rw [hd] at h
          cases hr : lookupItems reg rest with
          | error e => rw [hr] at h; cases h
          | ok items =>
              rw [hr] at h
              simp only [Except.bind, Except.pure] at h
              cases h
              rcases List.mem_cons.1 hit with h | h
              · exact ⟨n, by rw [h]; exact hd⟩
              · exact ih items hr it h

theorem pySetInsert_mem (s : List Item) (i it : Item)
    (h : it ∈ pySetInsert s i) : it ∈ s ∨ it = i := by
  cases hany : s.any (fun j => j.oid = i.oid) with
  | true =>
      rw [pySetInsert, hany] at h
      exact Or.inl (by simpa using h)
  | false =>
      have hrw : pySetInsert s i = s ++ [i] := by
        simp [pySetInsert, hany]
      rw [hrw] at h
      rcases List.mem_append.1 h with h | h
      · exact Or.inl h
      · exact Or.inr (List.mem_singleton.1 h)

theorem pySetBuild_mem :
    ∀ (l acc : List Item) (it : Item), it ∈ pySetBuild acc l →
      it ∈ acc ∨ it ∈ l := by
  intro l
  induction l with
  | nil => intro acc it h; exact Or.inl h
  | cons i rest ih =>
      intro acc it h
      rcases ih (pySetInsert acc i) it h with h | h
      · rcases pySetInsert_mem acc i it h with h | h
        · exact Or.inl h
        · exact Or.inr (List.mem_cons.2 (Or.inl h))
      · exact Or.inr (List.mem_cons.2 (Or.inr h))

theorem getAll_mem :
    ∀ (l : List Item) (cs : List Component), Item.getAll l = .ok cs →
      ∀ c ∈ cs, ∃ it ∈ l, ∃ cs', it.get_components = .ok cs' ∧ c ∈ cs' := by
  intro l
  induction l with
  | nil =>
      intro cs h c hc
      rw [Item.getAll] at h
      cases h
      cases hc
  | cons i rest ih =>
      intro cs h c hc
      rw [Item.getAll] at h
      cases hg : i.get_components with
      | error e => rw [hg] at h; cases h
      | ok cs1 =>
          rw [hg] at h
          cases hr : Item.getAll rest with
          | error e => simp only [hr, Except.bind] at h; cases h
          | ok cs2 =>
              simp only [hr, Except.bind, Except.pure] at h
              cases h
              rcases List.mem_append.1 hc with h | h
              · exact ⟨i, List.mem_cons_self _ _, cs1, hg, h⟩
              · obtain ⟨it, hit, cs', hcs', hc'⟩ := ih cs2 hr c h
                exact ⟨it, List.mem_cons.2 (Or.inr hit), cs', hcs', hc'⟩

/-- Resolution against a loaded registry only produces supported
components. -/
theorem normalize_ok_supported (config : Config)
    (registry : List (String × Item)) (names : List String)
    (comps : List Component)
    (hl : load_components config = .ok registry)
    (hn : normalize_components registry names = .ok comps) :
    ∀ c ∈ comps, c.is_supported = true := by
  intro c hc
  unfold normalize_components at hn
  cases hlk : lookupItems registry names with
  | error e => rw [hlk] at hn; cases hn
  | ok looked =>
      rw [hlk] at hn
      simp only [Except.bind] at hn
      obtain ⟨it, hit, cs', hcs', hc'⟩ := getAll_mem _ _ hn c hc
      rcases pySetBuild_mem looked [] it hit with h | h
      · cases h
      · obtain ⟨n, hdl⟩ := lookupItems_mem registry names looked hlk it h
        exact load_registry_supported config registry hl n it
          (dictLookup_mem registry n it hdl) cs' hcs' c hc'

/-! ## Claim C6 -/

/-- C6: every Component constructed from configuration has
`is_supported = true` — the constructor sets the flag unconditionally and
accepts no parameter for it, loading never turns it off (whatever a
registry item flattens to is supported), and consequently the
unsupported-skip branch of build, push and build-and-push is unreachable
for loaded components: those handlers print no skip notice. -/
theorem loaded_components_always_supported (config : Config)
    (registry : List (String × Item))
    (hl : load_components config = .ok registry) :
    (∀ (oid : Nat) (name image_name dockerfile : String)
        (ct : Option String) (cf : Option String) (al : Option (List String))
        (dep : Option (List String)),
        (Component.init oid name image_name dockerfile ct cf al dep).is_supported
          = true) ∧
    (∀ n it, (n, it) ∈ registry → ∀ cs, it.get_components = .ok cs →
        ∀ c ∈ cs, c.is_supported = true) ∧
    (∀ pick world names ns st,
        cmd_build pick world registry names = .ok (ns, st) → ns = []) ∧
    (∀ pick world names ru pn itag ns st,
        cmd_push pick world registry names ru pn itag = .ok (ns, st) →
        ns = []) ∧
    (∀ pick world names ru pn itag ns st,
        cmd_build_and_push pick world registry names ru pn itag = .ok (ns, st) →
        ns = []) := by
  have hfilter : ∀ (names : List String) (comps : List Component),
      normalize_components registry names = .ok comps →
      (comps.filter (fun c => !c.is_supported)) = [] := by
    intro names comps hn
    rw [List.filter_eq_nil]
    intro c hc
    simp [normalize_ok_supported config registry names comps hl hn c hc]
  refine ⟨fun _ _ _ _ _ _ _ _ => rfl,
    load_registry_supported config registry hl, ?_, ?_, ?_⟩
  · intro pick world names ns st hb
    unfold cmd_build at hb
    cases hn : normalize_components registry names with
    | error e => rw [hn] at hb; cases hb
    | ok comps =>
        rw [hn] at hb
        have hb' : Except.bind
            (run_multiple_futuresE pick
              (composeLoop (buildEvents world) comps).2)
            (fun st => Except.ok
              ((composeLoop (buildEvents world) comps).1, st))
          = Except.ok (ns, st) := hb
        cases hr : run_multiple_futuresE pick
            (composeLoop (buildEvents world) comps).2 with
        | error e => rw [hr] at hb'; cases hb'
        | ok st' =>
            rw [hr] at hb'
            cases hb'
            rw [composeLoop_eq, hfilter names comps hn]
            rfl
  · intro pick world names ru pn itag ns st hb
    unfold cmd_push at hb
    cases hn : normalize_components registry names with
    | error e => rw [hn] at hb; cases hb
    | ok comps =>
        rw [hn] at hb
        have hb' : Except.bind
            (run_multiple_futuresE pick
              (composeLoop (fun c => tagPushEvents world c ru pn itag)
                comps).2)
            (fun st => Except.ok
              ((composeLoop (fun c => tagPushEvents world c ru pn itag)
                comps).1, st))
          = Except.ok (ns, st) := hb
        cases hr : run_multiple_futuresE pick
            (composeLoop (fun c => tagPushEvents world c ru pn itag) comps).2 with
        | error e => rw [hr] at hb'; cases hb'
        | ok st' =>
            rw [hr] at hb'
            cases hb'
            rw [composeLoop_eq, hfilter names comps hn]
            rfl
  · intro pick world names ru pn itag ns st hb
    unfold cmd_build_and_push at hb
    cases hn : normalize_components registry names with
    | error e => rw [hn] at hb; cases hb
    | ok comps =>
        rw [hn] at hb
        have hb' : Except.bind
            (run_multiple_futuresE pick
              (composeLoop (fun c => buildTagPushEvents world c ru pn itag)
                comps).2)
            (fun st => Except.ok
              ((composeLoop (fun c => buildTagPushEvents world c ru pn itag)
                comps).1, st))
          = Except.ok (ns, st) := hb
        cases hr : run_multiple_futuresE pick
            (composeLoop (fun c => buildTagPushEvents world c ru pn itag)
              comps).2 with
        | error e => rw [hr] at hb'; cases hb'
        | ok st' =>
            rw [hr] at hb'
            cases hb'
            rw [composeLoop_eq, hfilter names comps hn]
            rfl

/-- Witness for C6 at the loaded example registry. -/
theorem loaded_components_always_supported_witness :
    (∀ (oid : Nat) (name image_name dockerfile : String)
        (ct : Option String) (cf : Option String) (al : Option (List String))
        (dep : Option (List String)),
        (Component.init oid name image_name dockerfile ct cf al dep).is_supported
          = true) ∧
    (∀ n it, (n, it) ∈ exampleRegistry → ∀ cs, it.get_components = .ok cs →
        ∀ c ∈ cs, c.is_supported = true) ∧
    (∀ pick world names ns st,
        cmd_build pick world exampleRegistry names = .ok (ns, st) → ns = []) ∧
    (∀ pick world names ru pn itag ns st,
        cmd_push pick world exampleRegistry names ru pn itag = .ok (ns, st) →
        ns = []) ∧
    (∀ pick world names ru pn itag ns st,
        cmd_build_and_push pick world exampleRegistry names ru pn itag
          = .ok (ns, st) → ns = []) :=
  loaded_components_always_supported exampleConfig exampleRegistry rfl

/-! ## Claim C2 -/

/-- C2 counterexample: `_build_and_tag_and_push` and `_tag_and_push` await
each `stream_subprocess` but discard its returned exit code, so a step
that *fails by exiting non-zero* does not abort the later steps.
Concretely: with the build command exiting 1, the tag and push commands
are still spawned (and the coroutine completes normally); with the tag
command exiting 1, push is still spawned — contradicting the claim that a
failing earlier step aborts the later steps for that component. -/
theorem failing_step_does_not_abort_counterexample :
    ((fun cmd => if cmd = buildCmd wComp then POutcome.exit 1
        else POutcome.exit 0) (buildCmd wComp) = POutcome.exit 1) ∧
    (build_and_tag_and_push_seq
        (fun cmd => if cmd = buildCmd wComp then .exit 1 else .exit 0)
        wComp "r" "p" "t")
      = ([buildCmd wComp,
          tagCmd wComp (full_image_name "r" "p" wComp.image_name "t"),
          pushCmd (full_image_name "r" "p" wComp.image_name "t")], .ok ()) ∧
    ((fun cmd =>
        if cmd = tagCmd wComp (full_image_name "r" "p" wComp.image_name "t")
        then POutcome.exit 1 else POutcome.exit 0)
      (tagCmd wComp (full_image_name "r" "p" wComp.image_name "t"))
        = POutcome.exit 1) ∧
    (tag_and_push_seq
        (fun cmd =>
          if cmd = tagCmd wComp (full_image_name "r" "p" wComp.image_name "t")
          then .exit 1 else .exit 0)
        wComp "r" "p" "t")
      = ([tagCmd wComp (full_image_name "r" "p" wComp.image_name "t"),
          pushCmd (full_image_name "r" "p" wComp.image_name "t")], .ok ()) :=
  ⟨rfl, rfl, rfl, rfl⟩

/-- C2 (amended): within one component's operation, only a *raised*
exception — a spawn failure from `create_subprocess_exec` — aborts the
later steps; a command that spawns and exits non-zero does not, because
the coroutines discard exit codes.  So: with any exit codes at all, all
steps run in source order; if build's spawn raises, neither tag nor push
runs and the error propagates; if tag's spawn raises after a spawned
build, push does not run; and for the push operation, a raised tag
failure means push is never spawned, while a spawned tag (whatever its
exit code) is followed by push.  Other components are unaffected either
way: each coroutine touches only its own commands, and the batch barrier
(claim C3's theorem) runs every other task to completion. -/
theorem abort_only_on_raised_spawn_failure (world : PWorld) (c : Component)
    (ru pn itag : String) :
    (((∃ cb, world (buildCmd c) = .exit cb) ∧
      (∃ ct, world (tagCmd c (full_image_name ru pn c.image_name itag))
          = .exit ct) ∧
      (∃ cp, world (pushCmd (full_image_name ru pn c.image_name itag))
          = .exit cp)) →
      (build_and_tag_and_push_seq world c ru pn itag)
        = ([buildCmd c, tagCmd c (full_image_name ru pn c.image_name itag),
            pushCmd (full_image_name ru pn c.image_name itag)], .ok ())) ∧
    (world (buildCmd c) = .spawnFail →
      (build_and_tag_and_push_seq world c ru pn itag)
        = ([], .error "ProcessSpawnError")) ∧
    (world (tagCmd c (full_image_name ru pn c.image_name itag)) = .spawnFail →
      ∀ cb, world (buildCmd c) = .exit cb →
      (build_and_tag_and_push_seq world c ru pn itag)
        = ([buildCmd c], .error "ProcessSpawnError")) ∧
    (world (tagCmd c (full_image_name ru pn c.image_name itag)) = .spawnFail →
      (tag_and_push_seq world c ru pn itag)
        = ([], .error "ProcessSpawnError")) ∧
    (((∃ ct, world (tagCmd c (full_image_name ru pn c.image_name itag))
          = .exit ct) ∧
      (∃ cp, world (pushCmd (full_image_name ru pn c.image_name itag))
          = .exit cp)) →
      (tag_and_push_seq world c ru pn itag)
        = ([tagCmd c (full_image_name ru pn c.image_name itag),
            pushCmd (full_image_name ru pn c.image_name itag)], .ok ())) := by
  refine ⟨?_, ?_, ?_, ?_, ?_⟩
  · rintro ⟨⟨cb, hb⟩, ⟨ct, ht⟩, ⟨cp, hp⟩⟩
    simp [build_and_tag_and_push_seq, runStep, hb, ht, hp]
  · intro hb
    simp [build_and_tag_and_push_seq, runStep, hb]
  · intro ht cb hb
    simp [build_and_tag_and_push_seq, runStep, hb, ht]
  · intro ht
    simp [tag_and_push_seq, runStep, ht]
  · rintro ⟨⟨ct, ht⟩, ⟨cp, hp⟩⟩
    simp [tag_and_push_seq, runStep, ht, hp]

/-- Witness for the amended C2: a world where every command spawns and
exits 0 runs all three steps; one where build's spawn raises runs none. -/
theorem abort_only_on_raised_spawn_failure_witness :
    (build_and_tag_and_push_seq (fun _ => POutcome.exit 0) wComp "r" "p" "t")
      = ([buildCmd wComp,
          tagCmd wComp (full_image_name "r" "p" wComp.image_name "t"),
          pushCmd (full_image_name "r" "p" wComp.image_name "t")], .ok ()) ∧
    (build_and_tag_and_push_seq (fun _ => POutcome.spawnFail) wComp "r" "p" "t")
      = ([], .error "ProcessSpawnError") :=
  ⟨(abort_only_on_raised_spawn_failure (fun _ => POutcome.exit 0) wComp
      "r" "p" "t").1 ⟨⟨0, rfl⟩, ⟨0, rfl⟩, ⟨0, rfl⟩⟩,
   (abort_only_on_raised_spawn_failure (fun _ => POutcome.spawnFail) wComp
      "r" "p" "t").2.1 rfl⟩

/-! ## Claim C9 -/

theorem digitChar_isDigit (n : Nat) : (digitChar n).isDigit = true := by
  unfold digitChar
  have h : n % 10 < 10 := Nat.mod_lt _ (by omega)
  set d := n % 10 with hd
  interval_cases d <;> decide

/-- C9: default image tag generation as a function of the `git describe
--dirty` output and the current UTC instant.  A clean tree prints the bare
revision (which never ends in `-dirty`), and the tag is exactly that
revision; a dirty tree prints `<revision>-dirty`, and the tag is
`<revision>-dirty-<timestamp>` where the appended timestamp always
matches the `YYYYMMDD-HHMMSS` shape (fifteen characters, all digits with
a dash at index eight).  The hypotheses record the relevant facts about
git's output — the revision carries no surrounding whitespace and does
not itself end in `-dirty` — and the field ranges `datetime.utcnow()`
guarantees. -/
theorem default_image_tag_generation (rev : String) (now : UtcTime)
    (hstrip1 : pyStrip (rev ++ "\n") = rev)
    (hstrip2 : pyStrip (rev ++ "-dirty\n") = rev ++ "-dirty")
    (hclean : pyEndsWith rev "-dirty" = false)
    (hdirty : pyEndsWith (rev ++ "-dirty") "-dirty" = true)
    (hyear : now.year < 10000) (hmonth : now.month < 100)
    (hday : now.day < 100) (hhour : now.hour < 100)
    (hminute : now.minute < 100) (hsecond : now.second < 100) :
    get_image_tag_from_git_commit (rev ++ "\n") now = rev ∧
    get_image_tag_from_git_commit (rev ++ "-dirty\n") now
      = rev ++ "-dirty-" ++ strftimeTs now ∧
    tsShape (strftimeTs now).data = true := by
  refine ⟨?_, ?_, ?_⟩
  · unfold get_image_tag_from_git_commit
    rw [hstrip1]
    show (if pyEndsWith rev "-dirty" = true then rev ++ "-" ++ strftimeTs now
        else rev) = rev
    rw [if_neg (by simp [hclean])]
  · unfold get_image_tag_from_git_commit
    rw [hstrip2]
    show (if pyEndsWith (rev ++ "-dirty") "-dirty" = true
        then rev ++ "-dirty" ++ "-" ++ strftimeTs now else rev ++ "-dirty")
      = rev ++ "-dirty-" ++ strftimeTs now
    rw [if_pos hdirty, String.append_assoc rev "-dirty" "-"]
    rfl
  · show tsShape (String.mk (pad4 now.year ++ pad2 now.month ++ pad2 now.day
      ++ ['-'] ++ pad2 now.hour ++ pad2 now.minute ++ pad2 now.second)).data
      = true
    simp only [String.mk, pad4, pad2, List.cons_append, List.nil_append,
      List.append_assoc]
    simp [tsShape, digitChar_isDigit]

/-- Witness for C9 at revision `abc123` and a fixed UTC instant. -/
theorem default_image_tag_generation_witness :
    get_image_tag_from_git_commit ("abc123" ++ "\n") ⟨2026, 10, 12, 3, 4, 5⟩
      = "abc123" ∧
    get_image_tag_from_git_commit ("abc123" ++ "-dirty\n")
        ⟨2026, 10, 12, 3, 4, 5⟩
      = "abc123" ++ "-dirty-" ++ strftimeTs ⟨2026, 10, 12, 3, 4, 5⟩ ∧
    tsShape (strftimeTs ⟨2026, 10, 12, 3, 4, 5⟩).data = true :=
  default_image_tag_generation "abc123" ⟨2026, 10, 12, 3, 4, 5⟩
    (by decide) (by decide) (by decide) (by decide)
    (by decide) (by decide) (by decide) (by decide) (by decide) (by decide)

/-! ## Claim C10 -/

/-- C10: the labeled sink writes `label ++ ": " ++ line` to its bound
channel (defaulting to standard output), with nothing appended — `print`
is called with `end=''` — so the line's trailing terminator is preserved
as part of the line itself; a bytes line is first decoded as UTF-8. -/
theorem labeled_sink_writes_prefixed_line (label : String)
    (chan : Option Channel) (s : String) (bs : List Nat) (cs : List Char)
    (hdec : utf8Decode bs = some cs) :
    mkprint (some label) chan (.text s)
      = some (chan.getD .stdout, label ++ ": " ++ s) ∧
    mkprint (some label) chan (.bytes bs)
      = some (chan.getD .stdout, label ++ ": " ++ String.mk cs) := by
  constructor
  · rfl
  · simp [mkprint, decodeLine, hdec]

/-- Witness for C10: input line `b"hello\n"` with label `svc` writes
`svc: hello\n` to standard output. -/
theorem labeled_sink_writes_prefixed_line_witness :
    mkprint (some "svc") none (.text "hello\n")
      = some ((none : Option Channel).getD .stdout, "svc" ++ ": " ++ "hello\n") ∧
    mkprint (some "svc") none (.bytes [104, 101, 108, 108, 111, 10])
      = some ((none : Option Channel).getD .stdout,
          "svc" ++ ": " ++ String.mk ['h', 'e', 'l', 'l', 'o', '\n']) :=
  labeled_sink_writes_prefixed_line "svc" none "hello\n"
    [104, 101, 108, 108, 111, 10] ['h', 'e', 'l', 'l', 'o', '\n'] rfl

end Pequod
